import Mathlib

/-!
# Buddy page allocator and slab allocator (kern/buddy.c, kern/slab.c)

A shallow embedding of the two allocators.  Page descriptors are addressed by
their page frame number (`page_to_pfn` / `pfn_to_page` are the identity on
frame numbers), the intrusive lists of `inc/list.h` are read as the sequence
of nodes met from the sentinel (`list_add` puts a node in front, `list_del`
unlinks a node, `list_first_entry` is the first node), and the unsigned
machine integers are natural numbers reduced modulo `2^32` or `2^16` where
the C code computes them.
-/

namespace Buddy

/-! ## Constants and page descriptors -/

/-- PAGE_MAX_ORDER of kern/buddy.h. -/
def PAGE_MAX_ORDER : Nat := 11

/-- MAX_NORMAL_PFN of kern/buddy.c. -/
def MAX_NORMAL_PFN : Nat := 0x10000

/-- Modelled from the spec: the page type kept in `pp_flags` under
`PAGE_TYPE_MASK` (kern/pmap.h is not part of the sources): free,
compound-head or compound-tail. -/
inductive PageType where
  | free
  | comp_head
  | comp_tail
deriving DecidableEq, Repr

/-- Modelled from the spec: a page descriptor of kern/pmap.h, which is not
part of the sources: a 16-bit reference count and a flags word holding the
page type and the order field (`PAGE_ORDER_MASK`, `PAGE_ORDER_SHIFT`). -/
structure PageInfo where
  pp_ref : Nat
  ptype : PageType
  order : Nat
deriving DecidableEq, Repr

/-- Modelled from the spec: `page_is_free` of kern/pmap.h, which is not part
of the sources: a page is free iff its reference count is zero. -/
def page_is_free (pp : PageInfo) : Bool := pp.pp_ref == 0

/-- The struct free_area of kern/buddy.c: the free lists (sequences of page
frame numbers), the per-order counters and the number of free base pages. -/
structure free_area where
  free_list : Nat → List Nat
  free_cnt : Nat → Nat
  num_free_pages : Nat

/-- The state the buddy allocator works on: the page table `pages`, its
length `npages`, and `kern_free_area`. -/
structure State where
  pages : Nat → PageInfo
  npages : Nat
  area : free_area

/-- Outcome of a call: it returns a value in a new state, or the kernel
stops on a failed assertion (the state is the one at the assertion), or the
call reads outside an array, which C leaves undefined. -/
inductive Result (α : Type) where
  | ok (val : α) (s : State)
  | panic (s : State)
  | undefined

/-- Update of one page descriptor. -/
def set_page (s : State) (pfn : Nat) (pp : PageInfo) : State :=
  { s with pages := fun q => if q = pfn then pp else s.pages q }

/-! ## kern/buddy.c -/

/-- The loop of find_first_set_bit: `n` iterations are left, `i` is the loop
counter.  The step expression `input >> 8` has no effect on `input`, and the
switch looks at `input & 0xF`. -/
def find_first_set_bit_loop (input : Nat) : Nat → Nat → Nat
  | 0, _ => 32
  | n + 1, i =>
    let nib := input % 16
    if nib = 1 ∨ nib = 3 ∨ nib = 5 ∨ nib = 7 ∨ nib = 9 ∨ nib = 11 ∨ nib = 13 ∨ nib = 15 then
      8 * i
    else if nib = 2 ∨ nib = 6 ∨ nib = 10 ∨ nib = 14 then 8 * i + 1
    else if nib = 4 ∨ nib = 12 then 8 * i + 2
    else if nib = 8 then 8 * i + 3
    else find_first_set_bit_loop input n (i + 1)

/-- find_first_set_bit of kern/buddy.c: `for (i = 0; i < 4; i++, input >> 8)`. -/
def find_first_set_bit (input : Nat) : Nat :=
  find_first_set_bit_loop input 4 0

/-- set_page_head: clears type and order, sets compound-head and the order. -/
def set_page_head (pfn order : Nat) (s : State) : State :=
  set_page s pfn { s.pages pfn with ptype := PageType.comp_head, order := order }

/-- set_page_tail: replaces the type only, the order field stays. -/
def set_page_tail (pfn : Nat) (s : State) : State :=
  set_page s pfn { s.pages pfn with ptype := PageType.comp_tail }

/-- get_page_order: the order field of the flags. -/
def get_page_order (pp : PageInfo) : Nat := pp.order

/-- __insert_to_free_list: list_add at the front of the list of the page's
order, `free_cnt[order]++`, `num_free_pages += 1 << order` (32-bit). -/
def __insert_to_free_list (pfn : Nat) (s : State) : State :=
  let order := get_page_order (s.pages pfn)
  { s with area :=
    { free_list := fun i => if i = order then pfn :: s.area.free_list i else s.area.free_list i
      free_cnt := fun i => if i = order then (s.area.free_cnt i + 1) % 2 ^ 32 else s.area.free_cnt i
      num_free_pages := (s.area.num_free_pages + 2 ^ order) % 2 ^ 32 } }

/-- __remove_from_free_list: list_del unlinks the page from the list it is
on, `free_cnt[order]--`, `num_free_pages -= 1 << order` (32-bit), with the
order read from the page. -/
def __remove_from_free_list (pfn : Nat) (s : State) : State :=
  let order := get_page_order (s.pages pfn)
  { s with area :=
    { free_list := fun i => (s.area.free_list i).erase pfn
      free_cnt := fun i =>
        if i = order then (s.area.free_cnt i + (2 ^ 32 - 1)) % 2 ^ 32 else s.area.free_cnt i
      num_free_pages := (s.area.num_free_pages + (2 ^ 32 - 2 ^ order % 2 ^ 32)) % 2 ^ 32 } }

/-- The inner loop of insert_free_list, `while (start + (1 << order) > end + 1)
order--`, in 32-bit arithmetic; `none` when the order would go below 0. -/
def fit_order (start end_ : Nat) : Nat → Option Nat
  | 0 => if (start + 1) % 2 ^ 32 > (end_ + 1) % 2 ^ 32 then none else some 0
  | o + 1 =>
    if (start + 2 ^ (o + 1)) % 2 ^ 32 > (end_ + 1) % 2 ^ 32 then fit_order start end_ o
    else some (o + 1)

/-- The outer loop of insert_free_list with `fuel` iterations allowed;
`none` when the fuel runs out or the order leaves its range. -/
def insert_free_list_loop : Nat → Nat → Nat → State → Option State
  | 0, start, end_, s => if start ≤ end_ then none else some s
  | fuel + 1, start, end_, s =>
    if start ≤ end_ then
      match fit_order start end_ (min (PAGE_MAX_ORDER - 1) (find_first_set_bit start)) with
      | none => none
      | some order =>
        let s1 := set_page_head start order s
        let s2 := __insert_to_free_list start s1
        insert_free_list_loop fuel ((start + 2 ^ order) % 2 ^ 32) end_ s2
    else some s

/-- insert_free_list of kern/buddy.c; every iteration advances `start` by at
least one page, so `end + 1 - start` iterations are enough when nothing
wraps. -/
def insert_free_list (start end_ : Nat) (s : State) : Option State :=
  insert_free_list_loop (end_ + 1 - start) start end_ s

/-- The loop `for (; pfn < npages - 1; pfn++)` of __buddy_init that looks for
the last page of a run of free pages; `n` is `npages - 1 - pfn`. -/
def last_free_page (pages : Nat → PageInfo) : Nat → Nat → Nat
  | 0, pfn => pfn
  | n + 1, pfn => if (pages (pfn + 1)).pp_ref = 0 then last_free_page pages n (pfn + 1) else pfn

/-- The scanning loop of __buddy_init with `fuel` iterations allowed. -/
def buddy_scan : Nat → Nat → State → Option State
  | 0, pfn, s => if pfn < s.npages ∧ pfn < MAX_NORMAL_PFN then none else some s
  | fuel + 1, pfn, s =>
    if pfn < s.npages ∧ pfn < MAX_NORMAL_PFN then
      if (s.pages pfn).pp_ref ≠ 0 then buddy_scan fuel (pfn + 1) s
      else
        let end_ := last_free_page s.pages (s.npages - 1 - pfn) pfn
        match insert_free_list pfn end_ s with
        | none => none
        | some s1 => buddy_scan fuel (end_ + 1) s1
    else some s

/-- The free area after the memset and the list_init loop of __buddy_init. -/
def empty_area : free_area :=
  { free_list := fun _ => [], free_cnt := fun _ => 0, num_free_pages := 0 }

/-- __buddy_init / buddy_init over a page table. -/
def buddy_init (pages : Nat → PageInfo) (npages : Nat) : Option State :=
  buddy_scan (min npages MAX_NORMAL_PFN) 0 { pages := pages, npages := npages, area := empty_area }

/-- page_ref: `pp->pp_ref++` on a 16-bit counter. -/
def page_ref (pfn : Nat) (s : State) : State :=
  set_page s pfn { s.pages pfn with pp_ref := ((s.pages pfn).pp_ref + 1) % 2 ^ 16 }

/-- page_deref: asserts that the count is not zero, then `--pp->pp_ref`. -/
def page_deref (pfn : Nat) (s : State) : Result Nat :=
  if (s.pages pfn).pp_ref = 0 then Result.panic s
  else
    Result.ok ((s.pages pfn).pp_ref - 1)
      (set_page s pfn { s.pages pfn with pp_ref := (s.pages pfn).pp_ref - 1 })

/-- The loop `while (cur_order < PAGE_MAX_ORDER && list_empty(free_list[cur_order]))
cur_order++` of get_page_from_freelist; `n` is `PAGE_MAX_ORDER - cur_order`. -/
def find_avail_order (fl : Nat → List Nat) : Nat → Nat → Nat
  | 0, cur_order => cur_order
  | n + 1, cur_order =>
    if (fl cur_order).isEmpty then find_avail_order fl n (cur_order + 1) else cur_order

/-- The splitting loop `while (cur_order > order)` of get_page_from_freelist;
`d` is `cur_order - order`.  The low half becomes a head of the lower order
and goes back to its free list, `pp` moves on to the high half. -/
def split_loop (order : Nat) : Nat → Nat → State → Nat × State
  | 0, pp, s => (pp, s)
  | d + 1, pp, s =>
    let s1 := set_page_head pp (order + d) s
    let s2 := __insert_to_free_list pp s1
    split_loop order d (pp + 2 ^ (order + d)) s2

/-- get_page_from_freelist of kern/buddy.c.  The fast path reads
`free_list[order]` before any bound is checked; the array has
PAGE_MAX_ORDER entries, so an order outside it is an access outside the
array.  After the scan the list at `cur_order` is not empty, so the empty
case of the second match is never taken. -/
def get_page_from_freelist (order : Nat) (s : State) : Result (Option Nat) :=
  if order < PAGE_MAX_ORDER then
    match s.area.free_list order with
    | pp :: _ => Result.ok (some pp) (__remove_from_free_list pp s)
    | [] =>
      let cur_order := find_avail_order s.area.free_list (PAGE_MAX_ORDER - order) order
      if cur_order = PAGE_MAX_ORDER then Result.ok none s
      else
        match s.area.free_list cur_order with
        | [] => Result.ok none s
        | pp :: _ =>
          let s1 := __remove_from_free_list pp s
          let r := split_loop order (cur_order - order) pp s1
          Result.ok (some r.1) r.2
  else Result.undefined

/-- alloc_pages of kern/buddy.c. -/
def alloc_pages (order : Nat) (s : State) : Result (Option Nat) :=
  match get_page_from_freelist order s with
  | Result.ok (some pp) s1 => Result.ok (some pp) (page_ref pp s1)
  | r => r

/-- find_buddy_pfn: `pfn ^ (1 << order)`. -/
def find_buddy_pfn (pfn order : Nat) : Nat := pfn ^^^ (2 ^ order)

/-- The merging loop of put_page_to_freelist; `n` is
`PAGE_MAX_ORDER - 1 - order`.  Returns the page and the order to insert. -/
def merge_loop : Nat → Nat → Nat → State → Nat × Nat × State
  | 0, pp, order, s => (pp, order, s)
  | n + 1, pp, order, s =>
    let buddy := find_buddy_pfn pp order
    if page_is_free (s.pages buddy) = true ∧ get_page_order (s.pages buddy) = order then
      let s1 := __remove_from_free_list buddy s
      if pp > buddy then merge_loop n pp (order + 1) (set_page_tail buddy s1)
      else merge_loop n buddy (order + 1) (set_page_tail pp s1)
    else (pp, order, s)

/-- put_page_to_freelist of kern/buddy.c. -/
def put_page_to_freelist (pp order : Nat) (s : State) : State :=
  let r := merge_loop (PAGE_MAX_ORDER - 1 - order) pp order s
  __insert_to_free_list r.1 (set_page_head r.1 r.2.1 r.2.2)

/-- free_pages of kern/buddy.c. -/
def free_pages (pp order : Nat) (s : State) : Result Unit :=
  match page_deref pp s with
  | Result.ok cnt s1 =>
    if cnt = 0 then Result.ok () (put_page_to_freelist pp order s1) else Result.ok () s1
  | Result.panic s1 => Result.panic s1
  | Result.undefined => Result.undefined

/-- num_free_pages_order. -/
def num_free_pages_order (order : Nat) (s : State) : Nat := s.area.free_cnt order

/-- num_free_pages. -/
def num_free_pages (s : State) : Nat := s.area.num_free_pages

/-! ## Well-formed states and observations used in the statements -/

/-- The invariants of the data model that the counters and descriptors of a
free area are meant to satisfy: a block linked on list `i` carries order `i`,
`free_cnt[i]` is the length of list `i`, `num_free_pages` is the number of
base pages of all blocks and fits 32 bits, and the pages of a free block
have reference count zero. -/
structure WF (s : State) : Prop where
  order_ok : ∀ i, i < PAGE_MAX_ORDER → ∀ b, b ∈ s.area.free_list i → get_page_order (s.pages b) = i
  cnt_ok : ∀ i, i < PAGE_MAX_ORDER → s.area.free_cnt i = (s.area.free_list i).length
  num_ok : s.area.num_free_pages =
    Finset.sum (Finset.range PAGE_MAX_ORDER) (fun i => 2 ^ i * s.area.free_cnt i)
  num_lt : s.area.num_free_pages < 2 ^ 32
  ref_ok : ∀ i, i < PAGE_MAX_ORDER → ∀ b, b ∈ s.area.free_list i →
    ∀ q, b ≤ q → q < b + 2 ^ i → (s.pages q).pp_ref = 0

/-- The values of num_free_pages_order(0), ..., num_free_pages_order(PAGE_MAX_ORDER - 1). -/
def free_cnt_vector (s : State) : List Nat :=
  (List.range PAGE_MAX_ORDER).map (fun i => num_free_pages_order i s)

/-- The free lists of orders 0, ..., PAGE_MAX_ORDER - 1. -/
def free_list_vector (s : State) : List (List Nat) :=
  (List.range PAGE_MAX_ORDER).map s.area.free_list

/-- The calls `p = alloc_pages(k); free_pages(p, k)`; `none` when the
allocation returns NULL or a call does not return. -/
def alloc_then_free (k : Nat) (s : State) : Option State :=
  match alloc_pages k s with
  | Result.ok (some p) s1 =>
    match free_pages p k s1 with
    | Result.ok _ s2 => some s2
    | _ => none
  | _ => none

/-- Whether every block linked on a free list `k` carries order `k` and
starts at a page frame number divisible by `2^k`. -/
def blocks_aligned (s : State) : Bool :=
  (List.range PAGE_MAX_ORDER).all (fun k =>
    (s.area.free_list k).all (fun b => get_page_order (s.pages b) == k && b % 2 ^ k == 0))

/-- A page table in which every page is free and every flags word is zero,
as the early memory initialisation leaves it. -/
def all_free_table : Nat → PageInfo :=
  fun _ => { pp_ref := 0, ptype := PageType.free, order := 0 }

/-- A page table whose first 16 pages are in use and whose other pages are
free. -/
def low16_used_table : Nat → PageInfo :=
  fun q => { pp_ref := if q < 16 then 1 else 0, ptype := PageType.free, order := 0 }

/-- The state buddy_init reaches on four free pages: one block of order 2
at page frame 0. -/
def four_pages : State :=
  { pages := fun q =>
      if q = 0 then { pp_ref := 0, ptype := PageType.comp_head, order := 2 }
      else { pp_ref := 0, ptype := PageType.free, order := 0 }
    npages := 4
    area :=
      { free_list := fun i => if i = 2 then [0] else []
        free_cnt := fun i => if i = 2 then 1 else 0
        num_free_pages := 4 } }

/-- The blocks insert_free_list inserts, as pairs of first page frame and
order, in the order of insertion: the trace of its outer loop, with `fuel`
iterations allowed. -/
def insert_free_list_blocks : Nat → Nat → Nat → List (Nat × Nat)
  | 0, _, _ => []
  | fuel + 1, start, end_ =>
    if start ≤ end_ then
      match fit_order start end_ (min (PAGE_MAX_ORDER - 1) (find_first_set_bit start)) with
      | none => []
      | some order => (start, order) :: insert_free_list_blocks fuel ((start + 2 ^ order) % 2 ^ 32) end_
    else []

/-- The body of the outer loop of insert_free_list for one block:
set_page_head and __insert_to_free_list. -/
def insert_block (s : State) (b : Nat × Nat) : State :=
  __insert_to_free_list b.1 (set_page_head b.1 b.2 s)

/-- Blocks that follow one another from frame `a` up to, not including, frame
`e`: the first starts at `a`, each next one starts where the previous one
ends, the last one ends at `e`. -/
def Consecutive : Nat → List (Nat × Nat) → Nat → Prop
  | a, [], e => a = e
  | a, b :: rest, e => b.1 = a ∧ Consecutive (a + 2 ^ b.2) rest e

/-- The number of blocks that contain the page frame `q`. -/
def cover_count (q : Nat) (blocks : List (Nat × Nat)) : Nat :=
  (blocks.filter (fun b => decide (b.1 ≤ q ∧ q < b.1 + 2 ^ b.2))).length

/-- The page frames on the free lists with their orders: the blocks of list
0, then of list 1, and so on. -/
def free_blocks (s : State) : List (Nat × Nat) :=
  (List.range PAGE_MAX_ORDER).flatMap (fun i => (s.area.free_list i).map (fun p => (p, i)))

/-- A call of the allocator: `alloc_pages(order)` or `free_pages(pp, order)`. -/
inductive Call where
  | alloc (order : Nat)
  | free (pp order : Nat)
deriving DecidableEq, Repr

/-- A sequence of calls from a state: the pages the allocations returned, in
order, and the state reached; `none` when an allocation returns NULL or a
call does not return. -/
def call_seq : List Call → State → Option (List Nat × State)
  | [], s => some ([], s)
  | Call.alloc k :: rest, s =>
    match alloc_pages k s with
    | Result.ok (some p) s1 => (call_seq rest s1).map (fun r => (p :: r.1, r.2))
    | _ => none
  | Call.free pp k :: rest, s =>
    match free_pages pp k s with
    | Result.ok _ s1 => call_seq rest s1
    | _ => none

/-- The state after buddy_init over 16 free pages and the calls
alloc_pages(0) three times (pages 15, 14, 13), alloc_pages(1) (page 10),
free_pages(10, 1), alloc_pages(1) (page 12), free_pages(12, 1). -/
def sixteen_pages_run : Option (List Nat × State) :=
  (buddy_init all_free_table 16).bind
    (call_seq [Call.alloc 0, Call.alloc 0, Call.alloc 0, Call.alloc 1, Call.free 10 1,
      Call.alloc 1, Call.free 12 1])

end Buddy

namespace Slab

/-! ## Constants of kern/slab.h and of the headers it relies on -/

/-- Modelled from the spec: PGSIZE of inc/mmu.h, which is not part of the
sources; the page size is 4096 bytes. -/
def PGSIZE : Nat := 4096

/-- Modelled from the spec: the base of the kernel mapping that `kva_of(pp)`
adds, KERNBASE of inc/memlayout.h, which is not part of the sources; JOS maps
physical memory from 0xF0000000. -/
def KERNBASE : Nat := 0xF0000000

/-- Modelled from the spec: `page2kva` of kern/pmap.h, which is not part of
the sources: the kernel virtual address of a page frame. -/
def page2kva (pfn : Nat) : Nat := KERNBASE + pfn * PGSIZE

/-- Modelled from the spec: `PTE_ADDR` of inc/mmu.h, which is not part of the
sources: the address with its low 12 bits cleared. -/
def PTE_ADDR (x : Nat) : Nat := x - x % PGSIZE

/-- KMEM2SLAB of kern/slab.h. -/
def KMEM2SLAB (kmem : Nat) : Nat := PTE_ADDR kmem

/-- The size of struct slab on the 32-bit target: a list node of two
pointers, flags, active, start and fte_index, four bytes each. -/
def sizeof_slab : Nat := 24

/-- The size of slab_fte_t, a uint16_t. -/
def sizeof_fte : Nat := 2

/-- SLAB_FTE_OFFSET_SHIFT. -/
def SLAB_FTE_OFFSET_SHIFT : Nat := 12

/-- SLAB_FTE_OFFSET: the low 12 bits of an entry. -/
def SLAB_FTE_OFFSET (fte : Nat) : Nat := fte &&& ((1 <<< SLAB_FTE_OFFSET_SHIFT) - 1)

/-- SLAB_FTE_FLAGS: the bits of an entry above the offset. -/
def SLAB_FTE_FLAGS (fte : Nat) : Nat := fte >>> SLAB_FTE_OFFSET_SHIFT

/-- SLAB_FTE_FLAGS_CONSTRUCTED. -/
def SLAB_FTE_FLAGS_CONSTRUCTED : Nat := 0x1

/-- SLAB_FREE_TABLE: the address right after the slab header. -/
def SLAB_FREE_TABLE (slabp : Nat) : Nat := slabp + sizeof_slab

/-! ## Data -/

/-- The struct slab of kern/slab.h, without its list node; `start` and
`fte_index` are addresses. -/
structure slab where
  flags : Nat
  active : Nat
  start : Nat
  fte_index : Nat
deriving DecidableEq, Repr

/-- The struct kmem_cache of kern/slab.h without its list node and name; the
three lists are sequences of slab addresses, `ctor` and `dtor` say whether
the function pointer is set. -/
structure kmem_cache where
  full_list : List Nat
  partial_list : List Nat
  free_list : List Nat
  objsize : Nat
  obj_per_slab : Nat
  ctor : Bool
  dtor : Bool
deriving DecidableEq, Repr

/-- The memory the slab allocator works on: the buddy allocator, the cache
descriptors and the slab headers by address, the 16-bit words of the pages by
address (the free tables live there), and the objects the constructor and the
destructor were called on, latest first. -/
structure World where
  buddy : Buddy.State
  caches : Nat → kmem_cache
  slabs : Nat → slab
  fte : Nat → Nat
  ctor_calls : List Nat
  dtor_calls : List Nat

/-- Outcome of a call of the slab allocator: a value in a new memory, a
panic (with the memory at that point), or behaviour C leaves undefined. -/
inductive Result (α : Type) where
  | ok (val : α) (w : World)
  | panic (w : World)
  | undefined

/-! ## kern/slab.c -/

/-- calc_obj_per_slab: `avail / (objsize + sizeof(slab_fte_t))` in 32-bit
unsigned arithmetic; `none` when the divisor is zero. -/
def calc_obj_per_slab (objsize : Nat) : Option Nat :=
  let avail := PGSIZE - sizeof_slab
  if (objsize + sizeof_fte) % 2 ^ 32 = 0 then none
  else some (avail / ((objsize + sizeof_fte) % 2 ^ 32))

/-- The loop of kmem_cache_new_page that writes the free table:
`for (...; fte_it < limit; fte_it++, kmem_offset += objsize) *fte_it = kmem_offset`
with `n` iterations left; `kmem_offset` is a uint16_t. -/
def fte_init_loop (objsize limit : Nat) : Nat → Nat → Nat → (Nat → Nat) → (Nat → Nat)
  | 0, _, _, mem => mem
  | n + 1, fte_it, kmem_offset, mem =>
    if fte_it < limit then
      fte_init_loop objsize limit n (fte_it + sizeof_fte) ((kmem_offset + objsize) % 2 ^ 16)
        (fun a => if a = fte_it then kmem_offset else mem a)
    else mem

/-- kmem_cache_new_page: takes a page from buddy and writes the slab header.
The loop over the free table starts with `fte_it = slabp->start` and runs
while `fte_it < slabp->start`. -/
def kmem_cache_new_page (objsize : Nat) (w : World) : Result (Option Nat) :=
  match Buddy.alloc_pages 0 w.buddy with
  | Buddy.Result.ok none b => Result.ok none { w with buddy := b }
  | Buddy.Result.ok (some pp) b =>
    match calc_obj_per_slab objsize with
    | none => Result.undefined
    | some n =>
      let slabp := page2kva pp
      let start := slabp + sizeof_slab + sizeof_fte * n
      let hdr : slab :=
        { flags := 0, active := 0, start := start, fte_index := SLAB_FREE_TABLE slabp }
      let mem := fte_init_loop objsize start ((start - start + 1) / sizeof_fte) start 0 w.fte
      Result.ok (some slabp)
        { w with buddy := b, slabs := fun a => if a = slabp then hdr else w.slabs a, fte := mem }
  | _ => Result.undefined

/-- kmem_cache_alloc_kmem: pops the entry at `fte_index`; the constructor is
called iff there is one and the CONSTRUCTED flag of the entry is clear. -/
def kmem_cache_alloc_kmem (slabp : Nat) (ctor : Bool) (w : World) : Option Nat × World :=
  let sl := w.slabs slabp
  let ftep := sl.fte_index
  if ftep ≥ sl.start then (none, w)
  else
    let kmem := sl.start + SLAB_FTE_OFFSET (w.fte ftep)
    let sl1 : slab := { sl with active := (sl.active + 1) % 2 ^ 32, fte_index := ftep + sizeof_fte }
    let constructed := SLAB_FTE_FLAGS (w.fte ftep) &&& SLAB_FTE_FLAGS_CONSTRUCTED
    (some kmem,
      { w with
        slabs := fun a => if a = slabp then sl1 else w.slabs a
        ctor_calls := if ctor = true ∧ constructed = 0 then kmem :: w.ctor_calls else w.ctor_calls })

/-- kmem_cache_data_init without the name. -/
def kmem_cache_data_init (objsize : Nat) (ctor dtor : Bool) : Option kmem_cache :=
  match calc_obj_per_slab objsize with
  | none => none
  | some n =>
    some { full_list := [], partial_list := [], free_list := [], objsize := objsize,
           obj_per_slab := n, ctor := ctor, dtor := dtor }

/-- list_del on a slab: the slab leaves the list it is linked on. -/
def slab_list_del (slabp : Nat) (w : World) : World :=
  { w with caches := fun a =>
      { w.caches a with
        full_list := (w.caches a).full_list.erase slabp
        partial_list := (w.caches a).partial_list.erase slabp
        free_list := (w.caches a).free_list.erase slabp } }

/-- Replaces the descriptor of one cache. -/
def set_cache (cache : Nat) (c : kmem_cache) (w : World) : World :=
  { w with caches := fun a => if a = cache then c else w.caches a }

/-- list_add(slabp, cache->full_list). -/
def add_to_full_list (cache slabp : Nat) (w : World) : World :=
  set_cache cache { w.caches cache with full_list := slabp :: (w.caches cache).full_list } w

/-- list_add(slabp, cache->partial_list). -/
def add_to_partial_list (cache slabp : Nat) (w : World) : World :=
  set_cache cache { w.caches cache with partial_list := slabp :: (w.caches cache).partial_list } w

/-- list_add(slabp, cache->free_list). -/
def add_to_free_list (cache slabp : Nat) (w : World) : World :=
  set_cache cache { w.caches cache with free_list := slabp :: (w.caches cache).free_list } w

/-- The first part of kmem_cache_alloc: the slab to allocate from, taken off
its list: the first partial slab, else the first free slab, else a new page;
`ok none` when buddy has no page. -/
def kmem_cache_alloc_slab (cache : Nat) (w : World) : Result (Option Nat) :=
  match (w.caches cache).partial_list with
  | [] =>
    match (w.caches cache).free_list with
    | [] => kmem_cache_new_page (w.caches cache).objsize w
    | slabp :: _ => Result.ok (some slabp) (slab_list_del slabp w)
  | slabp :: _ => Result.ok (some slabp) (slab_list_del slabp w)

/-- kmem_cache_alloc of kern/slab.c. -/
def kmem_cache_alloc (cache : Nat) (w : World) : Result (Option Nat) :=
  match kmem_cache_alloc_slab cache w with
  | Result.ok (some slabp) w1 =>
    match kmem_cache_alloc_kmem slabp (w1.caches cache).ctor w1 with
    | (none, w2) => Result.panic w2
    | (some kmem, w2) =>
      Result.ok (some kmem)
        (if (w2.slabs slabp).active = (w2.caches cache).obj_per_slab then
          add_to_full_list cache slabp w2
        else add_to_partial_list cache slabp w2)
  | r => r

/-- kmem_cache_free of kern/slab.c. -/
def kmem_cache_free (kmem cache : Nat) (w : World) : Result Unit :=
  let slabp := KMEM2SLAB kmem
  let sl := w.slabs slabp
  let kmem_offset := (kmem % 2 ^ 32 + (2 ^ 32 - sl.start % 2 ^ 32)) % 2 ^ 32
  if sl.fte_index ≤ SLAB_FREE_TABLE slabp then Result.panic w
  else
    let w1 := slab_list_del slabp w
    let w2 : World :=
      { w1 with
        dtor_calls := if (w1.caches cache).dtor = true then kmem :: w1.dtor_calls else w1.dtor_calls }
    let sl1 : slab :=
      { sl with active := (sl.active + (2 ^ 32 - 1)) % 2 ^ 32, fte_index := sl.fte_index - sizeof_fte }
    let entry := (kmem_offset ||| (SLAB_FTE_FLAGS_CONSTRUCTED <<< SLAB_FTE_OFFSET_SHIFT)) % 2 ^ 16
    let w3 : World :=
      { w2 with
        slabs := fun a => if a = slabp then sl1 else w2.slabs a
        fte := fun a => if a = sl1.fte_index then entry else w2.fte a }
    Result.ok ()
      (if sl1.active = 0 then add_to_free_list cache slabp w3
       else add_to_partial_list cache slabp w3)

/-! ## Sequences of calls on one cache -/

/-- A call on the cache: an allocation, or the release of an object. -/
inductive Op where
  | alloc
  | free (kmem : Nat)
deriving DecidableEq, Repr

/-- The memory together with the objects that are live (handed out and not
released since), the largest number of objects that were live at once, and
the numbers of successful allocations and of releases. -/
structure Run where
  w : World
  live : List Nat
  peak : Nat
  allocs : Nat
  frees : Nat

/-- One call; `none` when the call panics, is undefined, or releases an
object that is not live. -/
def step (cache : Nat) : Op → Run → Option Run
  | Op.alloc, r =>
    match kmem_cache_alloc cache r.w with
    | Result.ok (some p) w1 =>
      some { r with w := w1, live := p :: r.live, peak := max r.peak (r.live.length + 1),
                    allocs := r.allocs + 1 }
    | Result.ok none w1 => some { r with w := w1 }
    | _ => none
  | Op.free p, r =>
    if p ∈ r.live then
      match kmem_cache_free p cache r.w with
      | Result.ok _ w1 => some { r with w := w1, live := r.live.erase p, frees := r.frees + 1 }
      | _ => none
    else none

/-- A sequence of calls, in order. -/
def run (cache : Nat) : List Op → Run → Option Run
  | [], r => some r
  | op :: ops, r =>
    match step cache op r with
    | none => none
    | some r1 => run cache ops r1

/-- The start of a sequence: the cache at address `cache` has just been
initialised for the object size, nothing is live and nothing was constructed
or destructed. -/
def fresh (cache : Nat) (c : kmem_cache) (w : World) : Run :=
  { w := { set_cache cache c w with ctor_calls := [], dtor_calls := [] }
    live := [], peak := 0, allocs := 0, frees := 0 }

/-- The calls `kmem_cache_free(kmem, cache); kmem_cache_alloc(cache)` and the
pointer the allocation returns; `none` when one of the calls does not
return. -/
def free_then_alloc (kmem cache : Nat) (w : World) : Option (Option Nat) :=
  match kmem_cache_free kmem cache w with
  | Result.ok _ w1 =>
    match kmem_cache_alloc cache w1 with
    | Result.ok v _ => some v
    | _ => none
  | _ => none

/-- A memory for the examples: buddy holds four free pages, no slab exists,
and every page already holds the free table the loop of kmem_cache_new_page
is meant to write for two objects of 2000 bytes (offsets 0 and 2000, flags
0). -/
def demo_world : World :=
  { buddy := Buddy.four_pages
    caches := fun _ =>
      { full_list := [], partial_list := [], free_list := [], objsize := 0, obj_per_slab := 0,
        ctor := false, dtor := false }
    slabs := fun _ => { flags := 0, active := 0, start := 0, fte_index := 0 }
    fte := fun a => if a % PGSIZE = 26 then 2000 else 0
    ctor_calls := []
    dtor_calls := [] }

/-- The sequence of calls `ops` on a cache created at address `cache` for
objects of 2000 bytes, over `demo_world`. -/
def demo_run (cache : Nat) (ctor dtor : Bool) (ops : List Op) : Option Run :=
  match kmem_cache_data_init 2000 ctor dtor with
  | none => none
  | some c => run cache ops (fresh cache c demo_world)

/-! ## Invariants used in the statements -/

/-- The address of entry `i` of the free table of the slab at `A`. -/
def fte_addr (A i : Nat) : Nat := SLAB_FREE_TABLE A + sizeof_fte * i

/-- The memory after the sequence `ops` of `demo_run`. -/
def demo_after (cache : Nat) (ctor dtor : Bool) (ops : List Op) : World :=
  match demo_run cache ctor dtor ops with
  | some r => r.w
  | none => demo_world

/-! ## The cache registry: kmem_cache_init, kmem_cache_create, kmem_cache_remove, kmem_cache_stats -/

/-- Modelled from the spec: `kva2page` of kern/pmap.h, which is not part of
the sources: the page frame of a kernel virtual address, the inverse of
`page2kva` on page addresses. -/
def kva2page (kva : Nat) : Nat := (kva - KERNBASE) / PGSIZE

/-- The size of struct kmem_cache on the 32-bit target: a list node and three
list heads of two pointers each, objsize, obj_per_slab, ctor and dtor of four
bytes each, and a name of KMEM_CACHE_NAME_MAXLEN = 32 bytes. -/
def sizeof_kmem_cache : Nat := 80

/-- The address of the static descriptor `cache_cache`; the value stands for
an address in the data of the kernel image. -/
def cache_cache : Nat := 0xF011B020

/-- The slab allocator with its global `cache_list`, the registry of caches
as the sequence of descriptor addresses. -/
structure Kernel where
  w : World
  cache_list : List Nat

/-- Outcome of a call that works on the registry. -/
inductive KResult (α : Type) where
  | ok (val : α) (k : Kernel)
  | panic (k : Kernel)
  | undefined

/-- kmem_cache_init: initialises `cache_cache` in place for descriptors and
makes it the only member of the registry. -/
def kmem_cache_init (w : World) : Option Kernel :=
  match kmem_cache_data_init sizeof_kmem_cache false false with
  | none => none
  | some c => some { w := set_cache cache_cache c w, cache_list := [cache_cache] }

/-- kmem_cache_create without the name.  The result of
kmem_cache_alloc(&cache_cache) is used whether it is NULL or not: the
descriptor is initialised at that address (NULL is address 0) and linked into
the registry, and the pointer is returned. -/
def kmem_cache_create (objsize : Nat) (ctor dtor : Bool) (k : Kernel) : KResult (Option Nat) :=
  match calc_obj_per_slab objsize with
  | none => KResult.undefined
  | some _ =>
    match kmem_cache_alloc cache_cache k.w with
    | Result.ok ret w1 =>
      match kmem_cache_data_init objsize ctor dtor with
      | none => KResult.undefined
      | some c =>
        KResult.ok ret
          { w := set_cache (ret.getD 0) c w1, cache_list := ret.getD 0 :: k.cache_list }
    | Result.panic w1 => KResult.panic { k with w := w1 }
    | Result.undefined => KResult.undefined

/-- One of the three loops of kmem_cache_remove:
`list_for_each_safe(slabp, list, tmp) free_pages(kva2page(slabp), 0)`. -/
def free_slab_pages : List Nat → Buddy.State → Buddy.Result Unit
  | [], b => Buddy.Result.ok () b
  | slabp :: rest, b =>
    match Buddy.free_pages (kva2page slabp) 0 b with
    | Buddy.Result.ok _ b1 => free_slab_pages rest b1
    | r => r

/-- kmem_cache_remove: an unregistered cache is left alone; else the pages
of the full, partial and free slabs go back to buddy, the descriptor leaves
the registry and is released to `cache_cache`. -/
def kmem_cache_remove (cache : Nat) (k : Kernel) : KResult Unit :=
  if cache ∈ k.cache_list then
    match free_slab_pages
        ((k.w.caches cache).full_list ++ (k.w.caches cache).partial_list
          ++ (k.w.caches cache).free_list) k.w.buddy with
    | Buddy.Result.ok _ b =>
      match kmem_cache_free cache cache_cache { k.w with buddy := b } with
      | Result.ok _ w1 => KResult.ok () { w := w1, cache_list := k.cache_list.erase cache }
      | Result.panic w1 => KResult.panic { w := w1, cache_list := k.cache_list.erase cache }
      | Result.undefined => KResult.undefined
    | Buddy.Result.panic b => KResult.panic { k with w := { k.w with buddy := b } }
    | Buddy.Result.undefined => KResult.undefined
  else KResult.ok () k

/-- The struct kmem_cache_stats of kern/slab.h. -/
structure cache_stats where
  full_cnt : Nat
  partial_cnt : Nat
  free_cnt : Nat
  page_cnt : Nat
  objcnt : Nat
deriving DecidableEq, Repr

/-- The loops of kmem_cache_stats over the full and the partial list: the
number of slabs and the sum of their `active`, both 32-bit. -/
def count_slabs (w : World) : List Nat → Nat × Nat → Nat × Nat
  | [], acc => acc
  | slabp :: rest, acc =>
    count_slabs w rest ((acc.1 + 1) % 2 ^ 32, (acc.2 + (w.slabs slabp).active) % 2 ^ 32)

/-- The loop of kmem_cache_stats over the free list: the number of slabs,
32-bit. -/
def count_free_slabs : List Nat → Nat → Nat
  | [], cnt => cnt
  | _ :: rest, cnt => count_free_slabs rest ((cnt + 1) % 2 ^ 32)

/-- kmem_cache_stats: the statistics written to `stats`; the walk reads the
cache and the slab headers and writes neither. -/
def kmem_cache_stats (cache : Nat) (w : World) : cache_stats :=
  let f := count_slabs w (w.caches cache).full_list (0, 0)
  let p := count_slabs w (w.caches cache).partial_list (0, f.2)
  let e := count_free_slabs (w.caches cache).free_list 0
  { full_cnt := f.1, partial_cnt := p.1, free_cnt := e,
    page_cnt := (f.1 + p.1 + e) % 2 ^ 32, objcnt := p.2 }

/-! ## Observations and memories used in the statements -/

/-- How a call ended. -/
inductive Outcome where
  | returned
  | panicked
  | undefined
deriving DecidableEq, Repr

/-- How a call of the slab allocator ended. -/
def outcome {α : Type} : Result α → Outcome
  | Result.ok _ _ => Outcome.returned
  | Result.panic _ => Outcome.panicked
  | Result.undefined => Outcome.undefined

/-- The value and the memory a call returned with, if it returned. -/
def returned {α : Type} : Result α → Option (α × World)
  | Result.ok v w => some (v, w)
  | _ => none

/-- The value and the state a call on the registry returned with, if it
returned. -/
def kreturned {α : Type} : KResult α → Option (α × Kernel)
  | KResult.ok v k => some (v, k)
  | _ => none

/-- A buddy state of eight pages: pages 0 to 3 are free in one block of order
2, pages 4 to 7 are in use. -/
def low_four_free : Buddy.State :=
  { pages := fun q =>
      if q = 0 then { pp_ref := 0, ptype := Buddy.PageType.comp_head, order := 2 }
      else if q < 4 then { pp_ref := 0, ptype := Buddy.PageType.free, order := 0 }
      else { pp_ref := 1, ptype := Buddy.PageType.free, order := 0 }
    npages := 8
    area :=
      { free_list := fun i => if i = 2 then [0] else []
        free_cnt := fun i => if i = 2 then 1 else 0
        num_free_pages := 4 } }

/-- A memory whose pages hold zeros: no cache, no slab, every word 0. -/
def zero_world : World :=
  { buddy := low_four_free
    caches := fun _ =>
      { full_list := [], partial_list := [], free_list := [], objsize := 0, obj_per_slab := 0,
        ctor := false, dtor := false }
    slabs := fun _ => { flags := 0, active := 0, start := 0, fte_index := 0 }
    fte := fun _ => 0
    ctor_calls := []
    dtor_calls := [] }

/-- A memory with stale contents: the first word after the slab header of
page frame 2 holds the offset 4095, flags 0; every other word is 0. -/
def stale_world : World :=
  { zero_world with
    fte := fun a => if a = page2kva 2 + 24 then 0xFFF else 0 }

/-- A memory in which buddy has no free page. -/
def no_page_world : World :=
  { zero_world with
    buddy := { pages := fun _ => { pp_ref := 1, ptype := Buddy.PageType.free, order := 0 }
               npages := 8
               area := Buddy.empty_area } }

/-- The sequence of calls `ops` on a cache created at address `cache` for
objects of `objsize` bytes, over the memory `w`. -/
def run_on (objsize : Nat) (w : World) (cache : Nat) (ctor dtor : Bool) (ops : List Op) :
    Option Run :=
  match kmem_cache_data_init objsize ctor dtor with
  | none => none
  | some c => run cache ops (fresh cache c w)

/-- The memory after a cache at address 200 for objects of 1000 bytes (four
per slab) has handed out three objects over `stale_world`: its slab is page
frame 3. -/
def other_cache_world : Option World :=
  (run_on 1000 stale_world 200 false false [Op.alloc, Op.alloc, Op.alloc]).map (fun r => r.w)

/-- The lists of a cache and the `active` counts of the slabs on them. -/
def slab_lists (cache : Nat) (w : World) : List (Nat × Nat) × List (Nat × Nat) × List (Nat × Nat) :=
  ((w.caches cache).full_list.map (fun s => (s, (w.slabs s).active)),
   (w.caches cache).partial_list.map (fun s => (s, (w.slabs s).active)),
   (w.caches cache).free_list.map (fun s => (s, (w.slabs s).active)))

/-- The allocator after kmem_cache_init over `demo_world`. -/
def demo_kernel : Kernel :=
  (kmem_cache_init demo_world).getD { w := demo_world, cache_list := [] }

/-- The slabs of the cache were obtained through kmem_cache_alloc: the slabs
on its lists are the pages `page2kva(pp)` of page frames `pps` that
alloc_pages handed out, each with reference count 1, and no page frame backs
two of them. -/
def SlabPagesOwned (cache : Nat) (w : World) (pps : List Nat) : Prop :=
  pps.Nodup ∧
  (w.caches cache).full_list ++ (w.caches cache).partial_list ++ (w.caches cache).free_list
    = pps.map page2kva ∧
  ∀ pp, pp ∈ pps → (w.buddy.pages pp).pp_ref = 1

/-- The allocator after `c = kmem_cache_create(2000 bytes)` on `demo_kernel`,
and `c`. -/
def demo_created : Option (Option Nat × Kernel) :=
  kreturned (kmem_cache_create 2000 false false demo_kernel)

/-- The allocator after three allocations from the cache created in
`demo_created` (two slabs), with that cache; `demo_kernel` and 0 if a call does
not return. -/
def demo_used : Nat × Kernel :=
  match demo_created with
  | some (some c, k1) =>
    match run c [Op.alloc, Op.alloc, Op.alloc]
        { w := k1.w, live := [], peak := 0, allocs := 0, frees := 0 } with
    | some r => (c, { k1 with w := r.w })
    | none => (0, demo_kernel)
  | _ => (0, demo_kernel)

/-! ## Observations on kmem_cache_remove -/

/-- How a call on the registry ended. -/
def koutcome {α : Type} : KResult α → Outcome
  | KResult.ok _ _ => Outcome.returned
  | KResult.panic _ => Outcome.panicked
  | KResult.undefined => Outcome.undefined

/-- The state in which a call on the registry returned or stopped on an
assertion. -/
def kstate {α : Type} : KResult α → Option Kernel
  | KResult.ok _ k => some k
  | KResult.panic k => some k
  | KResult.undefined => none

/-- The allocator after kmem_cache_init over `stale_world` and
`c = kmem_cache_create(2000 bytes)`, with `c`; `none` when the creation does
not return a cache. -/
def stale_created : Option (Nat × Kernel) :=
  (kmem_cache_init stale_world).bind (fun k =>
    match kmem_cache_create 2000 false false k with
    | KResult.ok (some c) k1 => some (c, k1)
    | _ => none)

/-- The calls `ops` on the cache of `stale_created`: the cache, the objects
that are live, and the allocator reached. -/
def stale_used (ops : List Op) : Option (Nat × List Nat × Kernel) :=
  stale_created.bind (fun x =>
    (run x.1 ops { w := x.2.w, live := [], peak := 0, allocs := 0, frees := 0 }).map
      (fun r => (x.1, r.live, { x.2 with w := r.w })))

end Slab

namespace IntrusiveList

/-! # The intrusive list of inc/list.h

List nodes are addressed by the address of their `struct list_head`
(`TO_LIST_NODE` and `list_entry` move between a container and its node by a
constant offset and are read as the identity); the memory maps an address to
the node stored there. -/

/-- The struct list_head of inc/list.h. -/
structure list_head where
  next : Nat
  prev : Nat
deriving DecidableEq, Repr

/-- NULL of inc/list.h. -/
def NULL : Nat := 0

/-- The memory of list nodes. -/
def Heap : Type := Nat → list_head

/-- The assignment `p->next = v`. -/
def set_next (h : Heap) (p v : Nat) : Heap :=
  fun q => if q = p then { h q with next := v } else h q

/-- The assignment `p->prev = v`. -/
def set_prev (h : Heap) (p v : Nat) : Heap :=
  fun q => if q = p then { h q with prev := v } else h q

/-- __list_init: `list->next = list; list->prev = list`. -/
def __list_init (list : Nat) (h : Heap) : Heap :=
  let h1 := set_next h list list
  set_prev h1 list list

/-- __list_empty: `head->next == head`. -/
def __list_empty (head : Nat) (h : Heap) : Bool := (h head).next == head

/-- __list_add: `new->next = head->next; new->prev = head;
head->next->prev = new; head->next = new`, each statement reading the memory
the previous ones left. -/
def __list_add (new head : Nat) (h : Heap) : Heap :=
  let h1 := set_next h new (h head).next
  let h2 := set_prev h1 new head
  let h3 := set_prev h2 (h2 head).next new
  set_next h3 head new

/-- __list_add_tail: `new->next = head; new->prev = head->prev;
head->prev->next = new; head->prev = new`. -/
def __list_add_tail (new head : Nat) (h : Heap) : Heap :=
  let h1 := set_next h new head
  let h2 := set_prev h1 new (h1 head).prev
  let h3 := set_next h2 (h2 head).prev new
  set_prev h3 head new

/-- __list_del: `old->next->prev = old->prev; old->prev->next = old->next;
old->next = NULL; old->prev = NULL`. -/
def __list_del (old : Nat) (h : Heap) : Heap :=
  let h1 := set_prev h (h old).next (h old).prev
  let h2 := set_next h1 (h1 old).prev (h1 old).next
  let h3 := set_next h2 old NULL
  set_prev h3 old NULL

/-- list_first_entry: the node `head->next`. -/
def list_first_entry (head : Nat) (h : Heap) : Nat := (h head).next

/-- list_pop_first: `node = list_first_entry(list); list_del(node); node`. -/
def list_pop_first (head : Nat) (h : Heap) : Nat × Heap :=
  let node := list_first_entry head h
  (node, __list_del node h)

/-! ## Reading a list as a sequence -/

/-- The nodes met by following `next` from the node `cur` until the sentinel
`head` is met, at most `fuel` of them. -/
def walk (h : Heap) (head : Nat) : Nat → Nat → List Nat
  | 0, _ => []
  | fuel + 1, cur =>
    if (h cur).next = head then [] else (h cur).next :: walk h head fuel (h cur).next

/-- The sequence of a list: the nodes met by following `next` from the
sentinel. -/
def to_seq (fuel head : Nat) (h : Heap) : List Nat := walk h head fuel head

/-- The nodes of `l` are linked in this order between `a` and `e`: `next`
leads from `a` through `l` to `e`, and `prev` leads back. -/
def Linked (h : Heap) : Nat → List Nat → Nat → Prop
  | a, [], e => (h a).next = e ∧ (h e).prev = a
  | a, x :: xs, e => (h a).next = x ∧ (h x).prev = a ∧ Linked h x xs e

/-- The list with sentinel `head` holds the sequence `l`: the sentinel and
the members are different nodes, linked in a circle in this order. -/
def IsList (h : Heap) (head : Nat) (l : List Nat) : Prop :=
  (head :: l).Nodup ∧ Linked h head l head

/-- Circular well-formedness: `n.next.prev = n` and `n.prev.next = n` for the
sentinel and every member. -/
def WellFormed (h : Heap) (head : Nat) (l : List Nat) : Prop :=
  ∀ n, n ∈ head :: l → (h (h n).next).prev = n ∧ (h (h n).prev).next = n

/-- The list with sentinel `head` implements the sequence `l`: its nodes are
linked in a circle in this order, following `next` from the sentinel reads
`l`, and the circle is well-formed. -/
def Refines (h : Heap) (head : Nat) (l : List Nat) : Prop :=
  IsList h head l ∧ to_seq (l.length + 1) head h = l ∧ WellFormed h head l

/-! ## The sequence operations of the specification

The second side of the refinement, written after the words of the
specification: a list is a sequence, list_add prepends, list_add_tail
appends, list_del removes one element and keeps the order of the others,
list_pop_first returns and removes the first element. -/

/-- Specification: list_init yields the empty sequence. -/
def spec_init : List Nat := []

/-- Specification: list_empty holds iff the sequence is empty. -/
def spec_empty (l : List Nat) : Bool := l.isEmpty

/-- Specification: list_add(x) prepends x. -/
def spec_add (x : Nat) (l : List Nat) : List Nat := x :: l

/-- Specification: list_add_tail(x) appends x. -/
def spec_add_tail (x : Nat) (l : List Nat) : List Nat := l ++ [x]

/-- Specification: list_del(x) removes exactly x and keeps the order of the
others. -/
def spec_del (x : Nat) (l : List Nat) : List Nat := l.erase x

/-- Specification: list_pop_first returns and removes the first element of
a non-empty sequence. -/
def spec_pop_first : List Nat → Option (Nat × List Nat)
  | [] => none
  | x :: rest => some (x, rest)

/-- A memory in which every node holds NULL pointers. -/
def null_heap : Heap := fun _ => { next := NULL, prev := NULL }

end IntrusiveList

namespace Buddy

/-! ## Theorems on the buddy allocator -/

/-- C1 (the code departs from the claim): on the free area of scenario S1,
1024 free pages in one block of order 10, `p = alloc_pages(0); free_pages(p, 0)`
leaves num_free_pages_order(i) at 0, 2, 1, ..., 1, 0 for i = 0, ..., 10
instead of the initial 0, ..., 0, 1: the merge keeps the higher page as head,
so the merged block of order 1 finds no buddy of its order. -/
theorem alloc_free_roundtrip_free_cnt :
    (buddy_init all_free_table 1024).map free_cnt_vector
      = some [0, 0, 0, 0, 0, 0, 0, 0, 0, 0, 1] ∧
    ((buddy_init all_free_table 1024).bind (alloc_then_free 0)).map free_cnt_vector
      = some [0, 2, 1, 1, 1, 1, 1, 1, 1, 1, 0] ∧
    ((buddy_init all_free_table 1024).bind (alloc_then_free 0)).map num_free_pages
      = some 1024 := by
  decide!

/-- C2 (the code departs from the claim): over a page table whose first 16
pages are in use and whose pages 16 to 47 are free, buddy_init links page
frame 16 on free_list[5], and 16 is not divisible by 2^5. -/
theorem buddy_init_misaligned_block :
    (buddy_init low16_used_table 48).map free_list_vector
      = some [[], [], [], [], [], [16], [], [], [], [], []] ∧
    (buddy_init low16_used_table 48).map blocks_aligned = some false ∧
    find_first_set_bit 16 = 32 ∧ 16 % 2 ^ 5 ≠ 0 := by
  decide!

/-- C5 (the code departs from the claim): alloc_pages(PAGE_MAX_ORDER) reads
`free_list[PAGE_MAX_ORDER]`, one entry past the array, before it compares
any order with PAGE_MAX_ORDER; it does not return NULL through the bound
check. -/
theorem alloc_pages_max_order (s : State) :
    alloc_pages PAGE_MAX_ORDER s = Result.undefined := by
  simp [alloc_pages, get_page_from_freelist]

/-- The scan for a non-empty list stops at the first non-empty list at or
above `cur`, or at `cur + n`. -/
theorem find_avail_order_spec (fl : Nat → List Nat) (n cur : Nat) :
    cur ≤ find_avail_order fl n cur ∧ find_avail_order fl n cur ≤ cur + n ∧
    (∀ i, cur ≤ i → i < find_avail_order fl n cur → fl i = []) ∧
    (find_avail_order fl n cur < cur + n → fl (find_avail_order fl n cur) ≠ []) := by
  induction n generalizing cur with
  | zero =>
    simp only [find_avail_order]
    exact ⟨le_refl _, le_refl _, fun i h1 h2 => by omega, fun h => by omega⟩
  | succ n ih =>
    unfold find_avail_order
    by_cases h : (fl cur).isEmpty = true
    · rw [if_pos h]
      obtain ⟨h1, h2, h3, h4⟩ := ih (cur + 1)
      refine ⟨by omega, by omega, ?_, ?_⟩
      · intro i hi hlt
        by_cases hc : i = cur
        · subst hc; exact List.isEmpty_iff.mp h
        · exact h3 i (by omega) hlt
      · intro hlt; exact h4 (by omega)
    · rw [if_neg h]
      refine ⟨le_refl _, by omega, fun i h1 h2 => by omega, ?_⟩
      intro _ hnil; apply h; simp [hnil]

/-- For an order inside the array, get_page_from_freelist returns, and it
returns NULL exactly when every list from that order on is empty, leaving
the state as it was. -/
theorem get_page_from_freelist_null_iff (s : State) (k : Nat) (hk : k < PAGE_MAX_ORDER) :
    (∃ v s', get_page_from_freelist k s = Result.ok v s') ∧
    ((∃ s', get_page_from_freelist k s = Result.ok none s') ↔
      ∀ j, k ≤ j → j < PAGE_MAX_ORDER → s.area.free_list j = []) ∧
    (∀ s', get_page_from_freelist k s = Result.ok none s' → s' = s) := by
  unfold get_page_from_freelist
  rw [if_pos hk]
  cases hfl : s.area.free_list k with
  | cons pp rest =>
    refine ⟨⟨_, _, rfl⟩, ⟨?_, ?_⟩, ?_⟩
    · rintro ⟨s', h⟩; simp at h
    · intro h; have := h k (le_refl _) hk; rw [hfl] at this; simp at this
    · intro s' h; simp at h
  | nil =>
    obtain ⟨h1, h2, h3, h4⟩ := find_avail_order_spec s.area.free_list (PAGE_MAX_ORDER - k) k
    simp only []
    by_cases hc : find_avail_order s.area.free_list (PAGE_MAX_ORDER - k) k = PAGE_MAX_ORDER
    · rw [if_pos hc]
      refine ⟨⟨_, _, rfl⟩, ⟨fun _ j hj1 hj2 => h3 j hj1 (by omega), fun _ => ⟨_, rfl⟩⟩, ?_⟩
      intro s' h; simp at h; exact h.symm
    · rw [if_neg hc]
      have hlt : find_avail_order s.area.free_list (PAGE_MAX_ORDER - k) k < k + (PAGE_MAX_ORDER - k) := by
        omega
      have hne := h4 hlt
      cases hfl2 : s.area.free_list (find_avail_order s.area.free_list (PAGE_MAX_ORDER - k) k) with
      | nil => exact absurd hfl2 hne
      | cons pp rest =>
        refine ⟨⟨_, _, rfl⟩, ⟨?_, ?_⟩, ?_⟩
        · rintro ⟨s', h⟩; simp at h
        · intro h
          have := h _ h1 (by omega)
          exact absurd this hne
        · intro s' h; simp at h

/-- C3: for every state and every order k below PAGE_MAX_ORDER, alloc_pages(k)
returns; it returns NULL if and only if free_list[j] is empty for every j in
[k, PAGE_MAX_ORDER); and when it returns NULL the state (free lists, free_cnt,
num_free_pages and every page descriptor) is the state before the call. -/
theorem alloc_pages_null_iff (s : State) (k : Nat) (hk : k < PAGE_MAX_ORDER) :
    (∃ v s', alloc_pages k s = Result.ok v s') ∧
    ((∃ s', alloc_pages k s = Result.ok none s') ↔
      ∀ j, k ≤ j → j < PAGE_MAX_ORDER → s.area.free_list j = []) ∧
    (∀ s', alloc_pages k s = Result.ok none s' → s' = s) := by
  obtain ⟨⟨v, s1, hv⟩, hiff, hsame⟩ := get_page_from_freelist_null_iff s k hk
  cases v with
  | none =>
    have ha : alloc_pages k s = Result.ok none s1 := by simp only [alloc_pages, hv]
    refine ⟨⟨_, _, ha⟩, ⟨fun _ => hiff.mp ⟨_, hv⟩, fun _ => ⟨_, ha⟩⟩, ?_⟩
    intro s' hs'
    rw [ha] at hs'
    injection hs' with _ e
    rw [← e]
    exact hsame s1 hv
  | some p =>
    have ha : alloc_pages k s = Result.ok (some p) (page_ref p s1) := by
      simp only [alloc_pages, hv]
    refine ⟨⟨_, _, ha⟩, ⟨fun ⟨s', hs'⟩ => ?_, fun h => ?_⟩, ?_⟩
    · rw [ha] at hs'; cases hs'
    · obtain ⟨s', hs'⟩ := hiff.mpr h
      rw [hv] at hs'; cases hs'
    · intro s' hs'
      rw [ha] at hs'; cases hs'

/-- C3 at a concrete state: with one block of order 2 free, alloc_pages(3)
returns NULL. -/
theorem alloc_pages_null_iff_witness :
    3 < PAGE_MAX_ORDER ∧ ∃ s', alloc_pages 3 four_pages = Result.ok none s' :=
  ⟨by decide, (alloc_pages_null_iff four_pages 3 (by decide)).2.1.mpr (by
    intro j hj _
    have h2 : j ≠ 2 := by omega
    simp [four_pages, h2])⟩

/-- The splitting loop: the page it returns, the reference counts, the
counters and the number of free pages after `d` splits down to order `k`. -/
theorem split_loop_spec (k : Nat) (d : Nat) (pp : Nat) (s : State)
    (hnum : s.area.num_free_pages < 2 ^ 32) :
    (split_loop k d pp s).1 + 2 ^ k = pp + 2 ^ (k + d) ∧
    (∀ q, ((split_loop k d pp s).2.pages q).pp_ref = (s.pages q).pp_ref) ∧
    (∀ i, (split_loop k d pp s).2.area.free_cnt i =
      if k ≤ i ∧ i < k + d then (s.area.free_cnt i + 1) % 2 ^ 32 else s.area.free_cnt i) ∧
    (split_loop k d pp s).2.area.num_free_pages =
      (s.area.num_free_pages + (2 ^ (k + d) - 2 ^ k)) % 2 ^ 32 := by
  induction d generalizing pp s with
  | zero =>
    refine ⟨by simp [split_loop], fun q => by simp [split_loop], fun i => ?_, ?_⟩
    · simp only [split_loop]; rw [if_neg]; omega
    · simp only [split_loop, Nat.add_zero, Nat.sub_self]
      exact (Nat.mod_eq_of_lt hnum).symm
  | succ d ih =>
    simp only [split_loop]
    have hlt : (__insert_to_free_list pp (set_page_head pp (k + d) s)).area.num_free_pages < 2 ^ 32 :=
      Nat.mod_lt _ (by norm_num)
    obtain ⟨h1, h2, h3, h4⟩ := ih (pp + 2 ^ (k + d)) _ hlt
    have hord : get_page_order ((set_page_head pp (k + d) s).pages pp) = k + d := by
      simp [set_page_head, set_page, get_page_order]
    refine ⟨?_, ?_, ?_, ?_⟩
    · rw [h1, ← Nat.add_assoc k d 1, pow_succ]; omega
    · intro q
      rw [h2]
      simp only [__insert_to_free_list, set_page_head, set_page]
      split <;> simp_all
    · intro i
      rw [h3]
      simp only [__insert_to_free_list, hord]
      simp only [set_page_head, set_page]
      by_cases hi : i = k + d
      · subst hi
        rw [if_neg (by omega), if_pos rfl, if_pos (by omega)]
      · rw [if_neg hi]
        by_cases hr : k ≤ i ∧ i < k + d
        · rw [if_pos hr, if_pos (by omega)]
        · rw [if_neg hr, if_neg (by omega)]
    · rw [h4]
      simp only [__insert_to_free_list, hord]
      simp only [set_page_head, set_page]
      have e1 : 2 ^ k ≤ 2 ^ (k + d) := Nat.pow_le_pow_right (by norm_num) (by omega)
      have e2 : 2 ^ (k + (d + 1)) = 2 ^ (k + d) + 2 ^ (k + d) := by
        rw [← Nat.add_assoc k d 1, pow_succ]; omega
      rw [e2, Nat.mod_add_mod]
      generalize 2 ^ (k + d) = A at e1 ⊢
      generalize 2 ^ k = B at e1 ⊢
      congr 1
      omega

/-- Two different terms of a sum over a range are together at most the sum. -/
theorem two_terms_le_sum (f : Nat → Nat) (n i j : Nat) (hi : i < n) (hj : j < n) (hij : i ≠ j) :
    f i + f j ≤ Finset.sum (Finset.range n) f := by
  rw [← Finset.add_sum_erase (Finset.range n) f (Finset.mem_range.mpr hj)]
  have : f i ≤ Finset.sum ((Finset.range n).erase j) f :=
    Finset.single_le_sum (f := f) (fun _ _ => Nat.zero_le _)
      (Finset.mem_erase.mpr ⟨hij, Finset.mem_range.mpr hi⟩)
  rw [add_comm]
  exact Nat.add_le_add_left this (f j)

/-- The 32-bit subtraction does not wrap when the subtrahend is at most the
value. -/
theorem sub_mod32 (x p : Nat) (hp : p ≤ x) (hx : x < 2 ^ 32) :
    (x + (2 ^ 32 - p % 2 ^ 32)) % 2 ^ 32 = x - p := by
  omega

/-- One term of a sum over a range is at most the sum. -/
theorem one_term_le_sum (f : Nat → Nat) (n j : Nat) (hj : j < n) :
    f j ≤ Finset.sum (Finset.range n) f :=
  Finset.single_le_sum (f := f) (fun _ _ => Nat.zero_le _) (Finset.mem_range.mpr hj)

/-- The scan finds the smallest order at or above `k` whose list is not
empty. -/
theorem find_avail_order_eq (fl : Nat → List Nat) (k j : Nat) (hkj : k ≤ j)
    (hj : j < PAGE_MAX_ORDER) (hne : fl j ≠ []) (hmin : ∀ i, k ≤ i → i < j → fl i = []) :
    find_avail_order fl (PAGE_MAX_ORDER - k) k = j := by
  obtain ⟨h1, h2, h3, h4⟩ := find_avail_order_spec fl (PAGE_MAX_ORDER - k) k
  by_contra hc
  rcases Nat.lt_or_gt_of_ne hc with hlt | hgt
  · exact h4 (by omega) (hmin _ h1 hlt)
  · exact hne (h3 j hkj hgt)

/-- The counts of alloc_pages where the invariants of the data model hold: in
a well-formed state, for an order k below PAGE_MAX_ORDER, if j is
the smallest order at or above k whose free list is not empty, alloc_pages(k)
returns a page, free_cnt[j] goes down by one, free_cnt[i] goes up by one for
every i with k <= i < j, every other free_cnt entry is unchanged,
num_free_pages goes down by exactly 2^k, and the reference count of the
returned page goes up by one. -/
theorem alloc_pages_counts (s : State) (k j : Nat) (hwf : WF s) (hkj : k ≤ j)
    (hj : j < PAGE_MAX_ORDER) (hne : s.area.free_list j ≠ [])
    (hmin : ∀ i, k ≤ i → i < j → s.area.free_list i = []) :
    ∃ p s', alloc_pages k s = Result.ok (some p) s' ∧
      s'.area.free_cnt j + 1 = s.area.free_cnt j ∧
      (∀ i, k ≤ i → i < j → s'.area.free_cnt i = s.area.free_cnt i + 1) ∧
      (∀ i, i < k ∨ j < i → s'.area.free_cnt i = s.area.free_cnt i) ∧
      s'.area.num_free_pages + 2 ^ k = s.area.num_free_pages ∧
      (s'.pages p).pp_ref = (s.pages p).pp_ref + 1 := by
  obtain ⟨b, rest, hb⟩ := List.exists_cons_of_ne_nil hne
  have hbmem : b ∈ s.area.free_list j := by rw [hb]; simp
  have hord := hwf.order_ok j hj b hbmem
  have hcnt : 1 ≤ s.area.free_cnt j := by rw [hwf.cnt_ok j hj, hb]; simp
  have hpow : 2 ^ j ≤ 2 ^ j * s.area.free_cnt j := Nat.le_mul_of_pos_right _ hcnt
  have hsum1 : 2 ^ j * s.area.free_cnt j ≤ _ :=
    one_term_le_sum (fun i => 2 ^ i * s.area.free_cnt i) PAGE_MAX_ORDER j hj
  have hnum := hwf.num_ok
  have hlt := hwf.num_lt
  have h2j : 2 ^ j ≤ s.area.num_free_pages := by rw [hnum]; exact le_trans hpow hsum1
  have hjlt : 2 ^ j < 2 ^ 32 := lt_of_le_of_lt h2j hlt
  have hcj : s.area.free_cnt j < 2 ^ 32 := by
    have : s.area.free_cnt j ≤ 2 ^ j * s.area.free_cnt j :=
      Nat.le_mul_of_pos_left _ (Nat.two_pow_pos j)
    have := le_trans this hsum1
    omega
  have hk : k < PAGE_MAX_ORDER := by omega
  -- the state after the block is taken off its list
  have hrem_cnt : ∀ i, (__remove_from_free_list b s).area.free_cnt i =
      if i = j then s.area.free_cnt j - 1 else s.area.free_cnt i := by
    intro i
    simp only [__remove_from_free_list, hord]
    by_cases hi : i = j
    · subst hi; rw [if_pos rfl, if_pos rfl]; omega
    · rw [if_neg hi, if_neg hi]
  have hrem_num : (__remove_from_free_list b s).area.num_free_pages =
      s.area.num_free_pages - 2 ^ j := by
    simp only [__remove_from_free_list, hord]
    exact sub_mod32 _ _ h2j hlt
  have hrem_pages : (__remove_from_free_list b s).pages = s.pages := rfl
  rcases Nat.eq_or_lt_of_le hkj with hkeq | hklt
  · -- fast path
    subst hkeq
    refine ⟨b, page_ref b (__remove_from_free_list b s), ?_, ?_, ?_, ?_, ?_, ?_⟩
    · simp only [alloc_pages, get_page_from_freelist, if_pos hk, hb]
    · show (__remove_from_free_list b s).area.free_cnt k + 1 = _
      rw [hrem_cnt, if_pos rfl]; omega
    · intro i h1 h2; omega
    · intro i hi
      show (__remove_from_free_list b s).area.free_cnt i = _
      rw [hrem_cnt, if_neg (by omega)]
    · show (__remove_from_free_list b s).area.num_free_pages + _ = _
      rw [hrem_num]; omega
    · have hr := hwf.ref_ok k hj b hbmem b (le_refl _) (by have := Nat.two_pow_pos k; omega)
      simp [page_ref, set_page, hrem_pages, hr]
  · -- a larger block is split
    have hknil : s.area.free_list k = [] := hmin k (le_refl _) hklt
    have hfind := find_avail_order_eq s.area.free_list k j hkj hj hne hmin
    have hnum1 : (__remove_from_free_list b s).area.num_free_pages < 2 ^ 32 := by
      rw [hrem_num]; exact lt_of_le_of_lt (Nat.sub_le _ _) hlt
    obtain ⟨h1, h2, h3, h4⟩ := split_loop_spec k (j - k) b (__remove_from_free_list b s) hnum1
    have hkd : k + (j - k) = j := by omega
    rw [hkd] at h1 h3 h4
    have e1 : 2 ^ k ≤ 2 ^ j := Nat.pow_le_pow_right (by norm_num) hkj
    refine ⟨(split_loop k (j - k) b (__remove_from_free_list b s)).1,
      page_ref (split_loop k (j - k) b (__remove_from_free_list b s)).1
        (split_loop k (j - k) b (__remove_from_free_list b s)).2, ?_, ?_, ?_, ?_, ?_, ?_⟩
    · simp only [alloc_pages, get_page_from_freelist, if_pos hk, hknil, hfind, hb,
        if_neg (Nat.ne_of_lt hj)]
    · show (split_loop k (j - k) b (__remove_from_free_list b s)).2.area.free_cnt j + 1 = _
      rw [h3, if_neg (by omega), hrem_cnt, if_pos rfl]; omega
    · intro i hi1 hi2
      show (split_loop k (j - k) b (__remove_from_free_list b s)).2.area.free_cnt i = _
      rw [h3, if_pos ⟨hi1, hi2⟩, hrem_cnt, if_neg (by omega)]
      have h2t : 2 ^ i * s.area.free_cnt i + 2 ^ j * s.area.free_cnt j ≤ _ :=
        two_terms_le_sum (fun i => 2 ^ i * s.area.free_cnt i) PAGE_MAX_ORDER i j
          (by omega) hj (by omega)
      have hci : s.area.free_cnt i ≤ 2 ^ i * s.area.free_cnt i :=
        Nat.le_mul_of_pos_left _ (Nat.two_pow_pos i)
      have h1j : 1 ≤ 2 ^ j * s.area.free_cnt j := le_trans (Nat.two_pow_pos j) hpow
      apply Nat.mod_eq_of_lt
      rw [← hnum] at h2t
      omega
    · intro i hi
      show (split_loop k (j - k) b (__remove_from_free_list b s)).2.area.free_cnt i = _
      rw [h3, if_neg (by omega), hrem_cnt, if_neg (by omega)]
    · show (split_loop k (j - k) b (__remove_from_free_list b s)).2.area.num_free_pages + _ = _
      rw [h4, hrem_num]
      generalize 2 ^ j = A at e1 h2j hjlt ⊢
      generalize 2 ^ k = B at e1 ⊢
      rw [Nat.mod_eq_of_lt (by omega)]
      omega
    · have hp : b ≤ (split_loop k (j - k) b (__remove_from_free_list b s)).1 ∧
          (split_loop k (j - k) b (__remove_from_free_list b s)).1 < b + 2 ^ j := by
        have := Nat.two_pow_pos k
        generalize 2 ^ j = A at e1 h1 ⊢
        generalize 2 ^ k = B at e1 h1 this ⊢
        omega
      have hr := hwf.ref_ok j hj b hbmem _ hp.1 hp.2
      have h2' := h2 (split_loop k (j - k) b (__remove_from_free_list b s)).1
      rw [hrem_pages] at h2'
      simp [page_ref, set_page, h2', hr]

/-- The state `four_pages` is well formed. -/
theorem four_pages_wf : WF four_pages where
  order_ok := by
    intro i _ b hb
    by_cases h2 : i = 2
    · subst h2
      simp [four_pages] at hb
      subst hb
      simp [four_pages, get_page_order]
    · simp [four_pages, h2] at hb
  cnt_ok := by
    intro i _
    by_cases h2 : i = 2
    · subst h2; simp [four_pages]
    · simp [four_pages, h2]
  num_ok := by decide
  num_lt := by decide
  ref_ok := by
    intro i _ b _ q _ _
    simp only [four_pages]
    split <;> rfl

/-- The counts at a concrete state: with one block of order 2 free, alloc_pages(0)
takes it (j = 2), leaves one block of order 0 and one of order 1, and three
free pages. -/
theorem alloc_pages_counts_witness :
    ∃ p s', alloc_pages 0 four_pages = Result.ok (some p) s' ∧
      s'.area.free_cnt 2 + 1 = four_pages.area.free_cnt 2 ∧
      (∀ i, 0 ≤ i → i < 2 → s'.area.free_cnt i = four_pages.area.free_cnt i + 1) ∧
      (∀ i, i < 0 ∨ 2 < i → s'.area.free_cnt i = four_pages.area.free_cnt i) ∧
      s'.area.num_free_pages + 2 ^ 0 = four_pages.area.num_free_pages ∧
      (s'.pages p).pp_ref = (four_pages.pages p).pp_ref + 1 :=
  alloc_pages_counts four_pages 0 2 four_pages_wf (by decide) (by decide)
    (by simp [four_pages])
    (by
      intro i _ hi
      have h2 : i ≠ 2 := by omega
      simp [four_pages, h2])

/-- Taking a block of `p` pages off and adding one of `2p` pages adds `p`
pages in 32-bit arithmetic. -/
theorem merge_step_mod (x p : Nat) :
    ((x + (2 ^ 32 - p % 2 ^ 32)) % 2 ^ 32 + (p + p)) % 2 ^ 32 = (x + p) % 2 ^ 32 := by
  omega

/-- The merging loop leaves the reference counts alone and keeps the number
of free pages plus the size of the block in hand unchanged modulo 2^32. -/
theorem merge_loop_spec (n pp order : Nat) (s : State) :
    (∀ q, ((merge_loop n pp order s).2.2.pages q).pp_ref = (s.pages q).pp_ref) ∧
    ((merge_loop n pp order s).2.2.area.num_free_pages + 2 ^ (merge_loop n pp order s).2.1) % 2 ^ 32
      = (s.area.num_free_pages + 2 ^ order) % 2 ^ 32 := by
  induction n generalizing pp order s with
  | zero => simp [merge_loop]
  | succ n ih =>
    unfold merge_loop
    simp only []
    split
    · rename_i hc
      have hnum : ∀ t : State, t.area = (__remove_from_free_list (find_buddy_pfn pp order) s).area →
          (t.area.num_free_pages + 2 ^ (order + 1)) % 2 ^ 32
            = (s.area.num_free_pages + 2 ^ order) % 2 ^ 32 := by
        intro t ht
        rw [ht]
        simp only [__remove_from_free_list, hc.2, pow_succ, Nat.mul_two]
        exact merge_step_mod _ _
      split
      · obtain ⟨h1, h2⟩ := ih pp (order + 1)
          (set_page_tail (find_buddy_pfn pp order)
            (__remove_from_free_list (find_buddy_pfn pp order) s))
        refine ⟨fun q => ?_, ?_⟩
        · rw [h1]
          simp only [set_page_tail, set_page, __remove_from_free_list]
          split <;> simp_all
        · rw [h2]; exact hnum _ rfl
      · obtain ⟨h1, h2⟩ := ih (find_buddy_pfn pp order) (order + 1)
          (set_page_tail pp (__remove_from_free_list (find_buddy_pfn pp order) s))
        refine ⟨fun q => ?_, ?_⟩
        · rw [h1]
          simp only [set_page_tail, set_page, __remove_from_free_list]
          split <;> simp_all
        · rw [h2]; exact hnum _ rfl
    · exact ⟨fun q => rfl, rfl⟩

/-- put_page_to_freelist leaves the reference counts alone and adds 2^k to
the number of free pages, in 32-bit arithmetic. -/
theorem put_page_to_freelist_spec (pp k : Nat) (s : State) :
    (∀ q, ((put_page_to_freelist pp k s).pages q).pp_ref = (s.pages q).pp_ref) ∧
    (put_page_to_freelist pp k s).area.num_free_pages = (s.area.num_free_pages + 2 ^ k) % 2 ^ 32 := by
  obtain ⟨h1, h2⟩ := merge_loop_spec (PAGE_MAX_ORDER - 1 - k) pp k s
  refine ⟨fun q => ?_, ?_⟩
  · rw [← h1 q]
    simp only [put_page_to_freelist, __insert_to_free_list, set_page_head, set_page]
    split <;> simp_all
  · rw [← h2]
    simp [put_page_to_freelist, __insert_to_free_list, set_page_head, set_page, get_page_order]

end Buddy

namespace Slab

/-! ## Theorems on the slab allocator -/

/-- The offset field of the entry kmem_cache_free writes is the low 12 bits
of the offset it was given. -/
theorem offset_of_entry (x : Nat) :
    SLAB_FTE_OFFSET ((x ||| (SLAB_FTE_FLAGS_CONSTRUCTED <<< SLAB_FTE_OFFSET_SHIFT)) % 2 ^ 16)
      = x % 2 ^ 12 := by
  simp only [SLAB_FTE_OFFSET, SLAB_FTE_FLAGS_CONSTRUCTED, SLAB_FTE_OFFSET_SHIFT]
  rw [show (1 <<< 12) - 1 = 2 ^ 12 - 1 by decide, Nat.and_pow_two_sub_one_eq_mod]
  apply Nat.eq_of_testBit_eq
  intro i
  simp only [Nat.testBit_mod_two_pow, Nat.testBit_or, Nat.one_shiftLeft, Nat.testBit_two_pow]
  by_cases hi : i < 12
  · have h1 : i < 16 := by omega
    have h2 : ¬ (12 = i) := by omega
    simp [hi, h1, h2]
  · simp [hi]

/-- What a kmem_cache_free that returns has done. -/
theorem kmem_cache_free_ok (kmem cache : Nat) (w w' : World)
    (h : kmem_cache_free kmem cache w = Result.ok () w') :
    SLAB_FREE_TABLE (KMEM2SLAB kmem) < (w.slabs (KMEM2SLAB kmem)).fte_index ∧
    w'.fte = (fun a => if a = (w.slabs (KMEM2SLAB kmem)).fte_index - sizeof_fte then
        ((kmem % 2 ^ 32 + (2 ^ 32 - (w.slabs (KMEM2SLAB kmem)).start % 2 ^ 32)) % 2 ^ 32
          ||| (SLAB_FTE_FLAGS_CONSTRUCTED <<< SLAB_FTE_OFFSET_SHIFT)) % 2 ^ 16
      else w.fte a) ∧
    w'.slabs = (fun a => if a = KMEM2SLAB kmem then
        { w.slabs (KMEM2SLAB kmem) with
          active := ((w.slabs (KMEM2SLAB kmem)).active + (2 ^ 32 - 1)) % 2 ^ 32
          fte_index := (w.slabs (KMEM2SLAB kmem)).fte_index - sizeof_fte }
      else w.slabs a) ∧
    w'.ctor_calls = w.ctor_calls ∧
    w'.dtor_calls = (if (w.caches cache).dtor = true then kmem :: w.dtor_calls else w.dtor_calls) ∧
    w'.buddy = w.buddy ∧
    w'.caches = (fun a => if a = cache then
        (if ((w.slabs (KMEM2SLAB kmem)).active + (2 ^ 32 - 1)) % 2 ^ 32 = 0 then
          { (slab_list_del (KMEM2SLAB kmem) w).caches cache with
            free_list := KMEM2SLAB kmem :: ((slab_list_del (KMEM2SLAB kmem) w).caches cache).free_list }
         else
          { (slab_list_del (KMEM2SLAB kmem) w).caches cache with
            partial_list :=
              KMEM2SLAB kmem :: ((slab_list_del (KMEM2SLAB kmem) w).caches cache).partial_list })
      else (slab_list_del (KMEM2SLAB kmem) w).caches a) := by
  unfold kmem_cache_free at h
  by_cases hp : (w.slabs (KMEM2SLAB kmem)).fte_index ≤ SLAB_FREE_TABLE (KMEM2SLAB kmem)
  · simp only [hp, if_true] at h
    cases h
  · simp only [hp, if_false, if_true, Result.ok.injEq, true_and] at h
    refine ⟨by omega, ?_⟩
    by_cases hx : ((w.slabs (KMEM2SLAB kmem)).active + (2 ^ 32 - 1)) % 2 ^ 32 = 0
    · simp only [hx, if_true] at h
      subst h
      simp only [hx, if_true]
      exact ⟨rfl, rfl, rfl, rfl, rfl, rfl⟩
    · simp only [hx, if_false] at h
      subst h
      simp only [hx, if_false]
      exact ⟨rfl, rfl, rfl, rfl, rfl, rfl⟩

/-- kmem_cache_free returns when the free-table index is above the table
base. -/
theorem kmem_cache_free_returns (kmem cache : Nat) (w : World)
    (h : SLAB_FREE_TABLE (KMEM2SLAB kmem) < (w.slabs (KMEM2SLAB kmem)).fte_index) :
    ∃ w', kmem_cache_free kmem cache w = Result.ok () w' := by
  unfold kmem_cache_free
  have hp : ¬ (w.slabs (KMEM2SLAB kmem)).fte_index ≤ SLAB_FREE_TABLE (KMEM2SLAB kmem) := by omega
  simp only [hp, if_false]
  exact ⟨_, rfl⟩

/-- Once the slab is chosen and its free table is not exhausted,
kmem_cache_alloc returns the object of the entry at the index. -/
theorem kmem_cache_alloc_of_slab (cache : Nat) (w w1 : World) (slabp : Nat)
    (hslab : kmem_cache_alloc_slab cache w = Result.ok (some slabp) w1)
    (hidx : (w1.slabs slabp).fte_index < (w1.slabs slabp).start) :
    ∃ w', kmem_cache_alloc cache w = Result.ok
      (some ((w1.slabs slabp).start + SLAB_FTE_OFFSET (w1.fte (w1.slabs slabp).fte_index))) w' := by
  unfold kmem_cache_alloc
  rw [hslab]
  simp only []
  unfold kmem_cache_alloc_kmem
  have hnf : ¬ (w1.slabs slabp).fte_index ≥ (w1.slabs slabp).start := by omega
  simp only [hnf, if_false]
  exact ⟨_, rfl⟩

/-- The offset kmem_cache_free computes for an object of the slab's object
region, read back from the entry, leads to the same object. -/
theorem offset_roundtrip (kmem start : Nat) (h1 : start ≤ kmem) (h2 : kmem < start + 2 ^ 12) :
    start + SLAB_FTE_OFFSET
      (((kmem % 2 ^ 32 + (2 ^ 32 - start % 2 ^ 32)) % 2 ^ 32
        ||| (SLAB_FTE_FLAGS_CONSTRUCTED <<< SLAB_FTE_OFFSET_SHIFT)) % 2 ^ 16) = kmem := by
  rw [offset_of_entry]
  omega

/-- C8 (amended): kmem_cache_free(p, cache) immediately followed by
kmem_cache_alloc(cache) returns the same address p when p is an object of a
slab with a live object (the free-table index is above the table base and not
above `start`, p lies in the 4096 bytes from `start`), and after the release
either the slab still holds a live object or the cache has no other partial
slab. -/
theorem free_then_alloc_same (cache kmem : Nat) (w : World)
    (h1 : SLAB_FREE_TABLE (KMEM2SLAB kmem) < (w.slabs (KMEM2SLAB kmem)).fte_index)
    (h2 : (w.slabs (KMEM2SLAB kmem)).fte_index ≤ (w.slabs (KMEM2SLAB kmem)).start)
    (h3 : (w.slabs (KMEM2SLAB kmem)).start ≤ kmem ∧
      kmem < (w.slabs (KMEM2SLAB kmem)).start + 2 ^ 12)
    (h4 : (1 < (w.slabs (KMEM2SLAB kmem)).active ∧ (w.slabs (KMEM2SLAB kmem)).active < 2 ^ 32) ∨
      (w.caches cache).partial_list.erase (KMEM2SLAB kmem) = []) :
    ∃ w1 w2, kmem_cache_free kmem cache w = Result.ok () w1 ∧
      kmem_cache_alloc cache w1 = Result.ok (some kmem) w2 := by
  obtain ⟨w1, hfree⟩ := kmem_cache_free_returns kmem cache w h1
  obtain ⟨_, hfte, hslabs, _, _, _, hcaches⟩ := kmem_cache_free_ok kmem cache w w1 hfree
  have hslab : kmem_cache_alloc_slab cache w1
      = Result.ok (some (KMEM2SLAB kmem)) (slab_list_del (KMEM2SLAB kmem) w1) := by
    unfold kmem_cache_alloc_slab
    have hc := congrFun hcaches cache
    simp only [if_true] at hc
    by_cases hx : ((w.slabs (KMEM2SLAB kmem)).active + (2 ^ 32 - 1)) % 2 ^ 32 = 0
    · have hp : (w.caches cache).partial_list.erase (KMEM2SLAB kmem) = [] := by
        rcases h4 with h | h
        · omega
        · exact h
      rw [if_pos hx] at hc
      have e1 : (w1.caches cache).partial_list = [] := by
        rw [hc]; simp only [slab_list_del]; exact hp
      have e2 : (w1.caches cache).free_list
          = KMEM2SLAB kmem :: (w.caches cache).free_list.erase (KMEM2SLAB kmem) := by
        rw [hc]; simp only [slab_list_del]
      rw [e1]
      simp only [e2]
    · rw [if_neg hx] at hc
      have e1 : (w1.caches cache).partial_list
          = KMEM2SLAB kmem :: (w.caches cache).partial_list.erase (KMEM2SLAB kmem) := by
        rw [hc]; simp only [slab_list_del]
      simp only [e1]
  have hsl : (slab_list_del (KMEM2SLAB kmem) w1).slabs (KMEM2SLAB kmem)
      = { w.slabs (KMEM2SLAB kmem) with
          active := ((w.slabs (KMEM2SLAB kmem)).active + (2 ^ 32 - 1)) % 2 ^ 32
          fte_index := (w.slabs (KMEM2SLAB kmem)).fte_index - sizeof_fte } := by
    show w1.slabs (KMEM2SLAB kmem) = _
    rw [hslabs]; simp
  have hft : (slab_list_del (KMEM2SLAB kmem) w1).fte = w1.fte := rfl
  have hidx : ((slab_list_del (KMEM2SLAB kmem) w1).slabs (KMEM2SLAB kmem)).fte_index
      < ((slab_list_del (KMEM2SLAB kmem) w1).slabs (KMEM2SLAB kmem)).start := by
    rw [hsl]
    simp only [SLAB_FREE_TABLE, sizeof_slab, sizeof_fte] at h1 ⊢
    omega
  obtain ⟨w2, halloc⟩ := kmem_cache_alloc_of_slab cache w1 _ _ hslab hidx
  refine ⟨w1, w2, hfree, ?_⟩
  rw [halloc]
  congr 2
  rw [hsl, hft, hfte]
  simp only [if_true]
  exact offset_roundtrip kmem _ h3.1 h3.2

/-- C8 (counterexample): after three allocations (two objects fill the first
slab, the third opens a second slab) and the release of the first object,
object 4026540060 of the second slab is live; releasing it and allocating
again returns 4026544156, an object of the first slab, because the partial
list is served before the free list. -/
theorem free_then_alloc_other_slab :
    (demo_run 0 true false [Op.alloc, Op.alloc, Op.alloc, Op.free 4026544156]).map
        (fun r => (r.live, free_then_alloc 4026540060 0 r.w))
      = some ([4026540060, 4026546156], some (some 4026544156)) ∧
    (4026544156 : Nat) ≠ 4026540060 := by
  decide!

/-- C8 (amended) at a concrete memory: after two allocations the slab is
full; releasing the first object and allocating again returns the same
address. -/
theorem free_then_alloc_same_witness :
    ∃ w1 w2, kmem_cache_free 4026544156 0 (demo_after 0 true false [Op.alloc, Op.alloc])
        = Result.ok () w1 ∧
      kmem_cache_alloc 0 w1 = Result.ok (some 4026544156) w2 :=
  free_then_alloc_same 0 4026544156 (demo_after 0 true false [Op.alloc, Op.alloc])
    (by decide!) (by decide!) (by decide!) (Or.inl (by decide!))

end Slab

namespace Slab

/-! ## Theorems on the registry, the statistics and the free table -/

/-- C15 (the code departs from the claim): with no free page in buddy and no
slab in `cache_cache`, kmem_cache_alloc(&cache_cache) returns NULL, and
kmem_cache_create goes on after its warning: it returns NULL, but the registry
has gained the address 0 in front of `cache_cache`, and a descriptor for the
requested object size (2000 bytes, two per slab) has been written at address
0. -/
theorem kmem_cache_create_null_registers :
    ((kmem_cache_init no_page_world).map
        (fun k => (k.cache_list, outcome (kmem_cache_alloc cache_cache k.w),
          (returned (kmem_cache_alloc cache_cache k.w)).map (fun x => x.1))))
      = some ([cache_cache], Outcome.returned, some none) ∧
    ((kmem_cache_init no_page_world).map
        (fun k => (kreturned (kmem_cache_create 2000 false false k)).map
          (fun x => (x.1, x.2.cache_list, (x.2.w.caches 0).objsize, (x.2.w.caches 0).obj_per_slab))))
      = some (some (none, [0, cache_cache], 2000, 2)) ∧
    ((kmem_cache_init no_page_world).map (fun k => ((k.w.caches 0).objsize, (k.w.caches 0).obj_per_slab)))
      = some (0, 0) := by
  decide!

/-- C16 (the code departs from the claim): page frame 3 is the slab of
another cache with three objects handed out, and the page the cache at 100
(2000-byte objects) gets for its slab, page frame 2, holds the stale offset
4095 in its first free-table word, which kmem_cache_new_page does not write.
The allocation returns 4026544155, an address in page frame 3; its release
takes the slab of the other cache.  After one allocation and one release no
object is live, and kmem_cache_stats reports objcnt = 3. -/
theorem objcnt_after_stale_offset :
    (other_cache_world.bind
        (fun w => run_on 2000 w 100 false false [Op.alloc, Op.free 4026544155])).map
      (fun r => (r.live, r.allocs, r.frees, (kmem_cache_stats 100 r.w).objcnt))
      = some ([], 1, 1, 3) ∧
    (other_cache_world.bind (fun w => run_on 2000 w 100 false false [Op.alloc])).map
      (fun r => (r.live, slab_lists 200 r.w))
      = some ([4026544155], ([], [(page2kva 3, 3)], [])) ∧
    KMEM2SLAB 4026544155 = page2kva 3 := by
  decide!

/-- C17 (the code departs from the claim): in the memory of C16 the release
of the live object 4026544155 raises page_cnt of the cache from 1 to 2 while
num_free_pages stays 2: the sum grows from 3 to 4 on a kmem_cache_free. -/
theorem free_changes_page_cnt :
    (other_cache_world.bind (fun w => run_on 2000 w 100 false false [Op.alloc])).map
      (fun r => (r.live, (kmem_cache_stats 100 r.w).page_cnt, Buddy.num_free_pages r.w.buddy))
      = some ([4026544155], 1, 2) ∧
    (other_cache_world.bind
        (fun w => run_on 2000 w 100 false false [Op.alloc, Op.free 4026544155])).map
      (fun r => ((kmem_cache_stats 100 r.w).page_cnt, Buddy.num_free_pages r.w.buddy))
      = some (2, 2) := by
  decide!

/-- C18 (the code departs from the claim): whenever kmem_cache_new_page
returns, the memory of the free tables is what it was before the call, since
the loop that is to write the table starts at `start` and ends before `start`.
On a page of zeros and objects of 2000 bytes (N = 2) the slab has active = 0
and fte_index at the table base, but entry 1 is 0, not 2000; with the stale
word of `stale_world` entry 0 of a slab in page frame 2 stays 4095. -/
theorem kmem_cache_new_page_table_not_written :
    (∀ objsize w, (returned (kmem_cache_new_page objsize w)).map (fun x => x.2.fte)
        = (returned (kmem_cache_new_page objsize w)).map (fun _ => w.fte)) ∧
    calc_obj_per_slab 2000 = some 2 ∧
    (returned (kmem_cache_new_page 2000 zero_world)).map
        (fun x => (x.1, (x.2.slabs (page2kva 3)).active,
          (x.2.slabs (page2kva 3)).fte_index,
          SLAB_FTE_OFFSET (x.2.fte (fte_addr (page2kva 3) 0)),
          SLAB_FTE_OFFSET (x.2.fte (fte_addr (page2kva 3) 1))))
      = some (some (page2kva 3), 0, SLAB_FREE_TABLE (page2kva 3), 0, 0) ∧
    stale_world.fte (fte_addr (page2kva 2) 0) = 4095 := by
  refine ⟨?_, by decide!, by decide!, by decide!⟩
  intro objsize w
  unfold kmem_cache_new_page
  split
  · rfl
  · split
    · rfl
    · simp [returned, sizeof_fte, fte_init_loop]
  · rfl

/-- C19 (the code departs from the claim): on pages of zeros a cache for
objects of 2000 bytes hands out the address 4026544156 twice in a row; both
objects are live and occupy the same bytes.  And with the stale word of
`stale_world` the object 4026544155 is handed out from the slab of page frame
2, whose object region is [4026540060, 4026540060 + 2 * 2000). -/
theorem two_live_objects_same_address :
    (run_on 2000 zero_world 100 false false [Op.alloc, Op.alloc]).map
      (fun r => (r.live, r.allocs, r.frees, (r.w.caches 100).objsize))
      = some ([4026544156, 4026544156], 2, 0, 2000) ∧
    (other_cache_world.bind (fun w => run_on 2000 w 100 false false [Op.alloc])).map
      (fun r => (r.live, (r.w.caches 100).partial_list, (r.w.slabs (page2kva 2)).start))
      = some ([4026544155], [page2kva 2], 4026540060) ∧
    4026540060 + 2 * 2000 ≤ 4026544155 := by
  decide!

/-- C20 (the code departs from the claim): in the memory of C16, after the
allocation and the release of 4026544155 the slab of page frame 3 is linked on
the partial list of the cache at 100 with active = 2 = obj_per_slab. -/
theorem partial_slab_with_all_active :
    (other_cache_world.bind
        (fun w => run_on 2000 w 100 false false [Op.alloc, Op.free 4026544155])).map
      (fun r => ((r.w.caches 100).obj_per_slab, slab_lists 100 r.w))
      = some (2, ([], [(page2kva 3, 2), (page2kva 2, 1)], [])) := by
  decide!

/-- The first slab of a list is still described by its header once it is
taken off the list. -/
theorem slab_list_del_slabs (s : Nat) (w : World) : (slab_list_del s w).slabs = w.slabs := rfl

/-- C14 (counterexample): two objects of one slab are live; after the release
of the first, 4026544156, the second, 4026546156, is still live, and a second
release of 4026544156 returns: the slab goes to the free list with active = 0
while 4026546156 is live. -/
theorem double_free_completes :
    (run_on 2000 demo_world 100 false false [Op.alloc, Op.alloc, Op.free 4026544156]).map
      (fun r => (r.live, outcome (kmem_cache_free 4026544156 100 r.w)))
      = some ([4026546156], Outcome.returned) ∧
    ((run_on 2000 demo_world 100 false false [Op.alloc, Op.alloc, Op.free 4026544156]).bind
      (fun r => returned (kmem_cache_free 4026544156 100 r.w))).map (fun x => slab_lists 100 x.2)
      = some ([], [], [(page2kva 3, 0)]) := by
  decide!

/-- C14 (amended): kmem_cache_free stops on its assertion if and only if the
index of the slab that holds the address is at (or below) the base of the
free table, that is when the slab has no object handed out, and then the state
is the one before the call; in every other state the call returns. -/
theorem kmem_cache_free_panic_iff (kmem cache : Nat) (w : World) :
    ((∃ w', kmem_cache_free kmem cache w = Result.panic w') ↔
      (w.slabs (KMEM2SLAB kmem)).fte_index ≤ SLAB_FREE_TABLE (KMEM2SLAB kmem)) ∧
    (∀ w', kmem_cache_free kmem cache w = Result.panic w' → w' = w) ∧
    (SLAB_FREE_TABLE (KMEM2SLAB kmem) < (w.slabs (KMEM2SLAB kmem)).fte_index →
      ∃ w', kmem_cache_free kmem cache w = Result.ok () w') := by
  by_cases h : (w.slabs (KMEM2SLAB kmem)).fte_index ≤ SLAB_FREE_TABLE (KMEM2SLAB kmem)
  · have hp : kmem_cache_free kmem cache w = Result.panic w := by
      unfold kmem_cache_free
      simp only [h, if_true]
    refine ⟨⟨fun _ => h, fun _ => ⟨w, hp⟩⟩, ?_, fun hlt => absurd h (by omega)⟩
    intro w' hw'
    rw [hp] at hw'
    cases hw'
    rfl
  · have hr : ∃ w', kmem_cache_free kmem cache w = Result.ok () w' := by
      unfold kmem_cache_free
      simp only [h, if_false]
      exact ⟨_, rfl⟩
    obtain ⟨w1, hw1⟩ := hr
    refine ⟨⟨?_, fun hh => absurd hh h⟩, ?_, fun _ => ⟨w1, hw1⟩⟩
    · rintro ⟨w', hw'⟩; rw [hw1] at hw'; cases hw'
    · intro w' hw'; rw [hw1] at hw'; cases hw'

/-- C14 (amended) at a concrete memory: with both objects of the slab
released the index is back at the table base, and one more release of
4026544156 stops on the assertion. -/
theorem kmem_cache_free_panic_iff_witness :
    ∃ w', kmem_cache_free 4026544156 0
        (demo_after 0 true false [Op.alloc, Op.alloc, Op.free 4026544156, Op.free 4026546156])
      = Result.panic w' :=
  (kmem_cache_free_panic_iff 4026544156 0
    (demo_after 0 true false [Op.alloc, Op.alloc, Op.free 4026544156, Op.free 4026546156])).1.2
      (by decide!)

/-- The page frame of the page of a slab. -/
theorem kva2page_page2kva (pp : Nat) : kva2page (page2kva pp) = pp := by
  simp only [kva2page, page2kva, KERNBASE, PGSIZE]
  omega

/-- A page with reference count 1 goes back to buddy: free_pages(pp, 0)
returns, one more page is free, and the other reference counts stay. -/
theorem free_pages_owned (pp : Nat) (b : Buddy.State) (h : (b.pages pp).pp_ref = 1) :
    ∃ b', Buddy.free_pages pp 0 b = Buddy.Result.ok () b' ∧
      b'.area.num_free_pages = (b.area.num_free_pages + 1) % 2 ^ 32 ∧
      ∀ q, q ≠ pp → (b'.pages q).pp_ref = (b.pages q).pp_ref := by
  have h0 : ¬ (b.pages pp).pp_ref = 0 := by rw [h]; decide
  obtain ⟨h1, h2⟩ := Buddy.put_page_to_freelist_spec pp 0
    (Buddy.set_page b pp { b.pages pp with pp_ref := (b.pages pp).pp_ref - 1 })
  refine ⟨Buddy.put_page_to_freelist pp 0
    (Buddy.set_page b pp { b.pages pp with pp_ref := (b.pages pp).pp_ref - 1 }), ?_, ?_, ?_⟩
  · simp only [Buddy.free_pages, Buddy.page_deref, h0, if_false, h]
    rfl
  · rw [h2]
    rfl
  · intro q hq
    rw [h1 q]
    simp only [Buddy.set_page, hq, if_false]

/-- The loops of kmem_cache_remove over slabs whose pages are owned: every
page goes back to buddy. -/
theorem free_slab_pages_owned (pps : List Nat) :
    ∀ b : Buddy.State, pps.Nodup → (∀ pp, pp ∈ pps → (b.pages pp).pp_ref = 1) →
    b.area.num_free_pages + pps.length < 2 ^ 32 →
    ∃ b', free_slab_pages (pps.map page2kva) b = Buddy.Result.ok () b' ∧
      b'.area.num_free_pages = b.area.num_free_pages + pps.length := by
  induction pps with
  | nil => intro b _ _ _; exact ⟨b, rfl, rfl⟩
  | cons pp rest ih =>
    intro b hnd hown hfit
    simp only [List.length_cons] at hfit
    obtain ⟨b1, hb1, hn1, hk1⟩ := free_pages_owned pp b (hown pp (List.mem_cons_self _ _))
    have hnd' := List.nodup_cons.mp hnd
    rw [Nat.mod_eq_of_lt (by omega)] at hn1
    obtain ⟨b2, hb2, hn2⟩ := ih b1 hnd'.2 (by
      intro q hq
      have hne : q ≠ pp := fun e => hnd'.1 (e ▸ hq)
      rw [hk1 q hne]
      exact hown q (List.mem_cons_of_mem _ hq)) (by omega)
    refine ⟨b2, ?_, ?_⟩
    · simp only [List.map_cons, free_slab_pages, kva2page_page2kva, hb1]
      exact hb2
    · rw [hn2, hn1]
      simp only [List.length_cons]
      omega

/-- The walk of kmem_cache_stats over a list counts its slabs. -/
theorem count_slabs_fst (w : World) (l : List Nat) (acc : Nat × Nat)
    (h : acc.1 + l.length < 2 ^ 32) : (count_slabs w l acc).1 = acc.1 + l.length := by
  induction l generalizing acc with
  | nil => rfl
  | cons s rest ih =>
    simp only [List.length_cons] at h
    simp only [count_slabs]
    rw [ih _ (by simp only; rw [Nat.mod_eq_of_lt (by omega)]; omega)]
    simp only [List.length_cons]
    rw [Nat.mod_eq_of_lt (by omega)]
    omega

/-- The walk of kmem_cache_stats over the free list counts its slabs. -/
theorem count_free_slabs_eq (l : List Nat) (cnt : Nat) (h : cnt + l.length < 2 ^ 32) :
    count_free_slabs l cnt = cnt + l.length := by
  induction l generalizing cnt with
  | nil => rfl
  | cons s rest ih =>
    simp only [List.length_cons] at h
    simp only [count_free_slabs]
    rw [ih _ (by rw [Nat.mod_eq_of_lt (by omega)]; omega)]
    simp only [List.length_cons]
    rw [Nat.mod_eq_of_lt (by omega)]
    omega

/-- What kmem_cache_remove does where its assumptions hold: for every
registered cache whose slabs are pages with reference count 1, no page backing
two of them (SlabPagesOwned), and whose descriptor is a live object of its
`cache_cache` slab, kmem_cache_remove returns, unregisters the cache, and
num_free_pages grows by exactly the number of slabs on the full, partial and
free lists, which is the page_cnt that kmem_cache_stats reports before the
call (the 32-bit counter not wrapping). -/
theorem kmem_cache_remove_returns_pages (cache : Nat) (k : Kernel) (pps : List Nat)
    (hreg : cache ∈ k.cache_list)
    (hown : SlabPagesOwned cache k.w pps)
    (hdesc : SLAB_FREE_TABLE (KMEM2SLAB cache) < (k.w.slabs (KMEM2SLAB cache)).fte_index)
    (hfit : Buddy.num_free_pages k.w.buddy + pps.length < 2 ^ 32) :
    (kmem_cache_stats cache k.w).page_cnt
      = (k.w.caches cache).full_list.length + (k.w.caches cache).partial_list.length
        + (k.w.caches cache).free_list.length ∧
    ∃ k2, kmem_cache_remove cache k = KResult.ok () k2 ∧
      k2.cache_list = k.cache_list.erase cache ∧
      Buddy.num_free_pages k2.w.buddy
        = Buddy.num_free_pages k.w.buddy + (kmem_cache_stats cache k.w).page_cnt := by
  obtain ⟨hnd, hlists, hrefs⟩ := hown
  have hlen : (k.w.caches cache).full_list.length + (k.w.caches cache).partial_list.length
      + (k.w.caches cache).free_list.length = pps.length := by
    have := congrArg List.length hlists
    simpa only [List.length_append, List.length_map] using this
  have hcnt : (kmem_cache_stats cache k.w).page_cnt = pps.length := by
    simp only [kmem_cache_stats]
    rw [count_slabs_fst _ _ _ (by simp only; omega), count_slabs_fst _ _ _ (by simp only; omega),
      count_free_slabs_eq _ _ (by omega)]
    simp only [Nat.zero_add]
    rw [Nat.mod_eq_of_lt (by omega)]
    exact hlen
  refine ⟨by rw [hcnt, hlen], ?_⟩
  obtain ⟨b', hb', hn'⟩ := free_slab_pages_owned pps k.w.buddy hnd hrefs hfit
  obtain ⟨w2, hw2⟩ := kmem_cache_free_returns cache cache_cache { k.w with buddy := b' } hdesc
  have hb2 : w2.buddy = b' := (kmem_cache_free_ok _ _ _ _ hw2).2.2.2.2.2.1
  refine ⟨{ w := w2, cache_list := k.cache_list.erase cache }, ?_, rfl, ?_⟩
  · unfold kmem_cache_remove
    rw [if_pos hreg, hlists, hb']
    simp only [hw2]
  · rw [hcnt]
    simp only [hb2, Buddy.num_free_pages] at *
    exact hn'

/-- The removal at a concrete state: a cache for 2000-byte objects is created
right after kmem_cache_init (num_free_pages 3 after the creation) and hands out
three objects, which takes two pages (num_free_pages 1, page_cnt 2); its
removal returns and num_free_pages is 3 again. -/
theorem kmem_cache_remove_returns_pages_witness :
    demo_created.map (fun x => Buddy.num_free_pages x.2.w.buddy) = some 3 ∧
    Buddy.num_free_pages demo_used.2.w.buddy = 1 ∧
    (kmem_cache_stats demo_used.1 demo_used.2.w).page_cnt = 2 ∧
    ∃ k2, kmem_cache_remove demo_used.1 demo_used.2 = KResult.ok () k2 ∧
      Buddy.num_free_pages k2.w.buddy = 3 := by
  have hn : Buddy.num_free_pages demo_used.2.w.buddy = 1 := by decide!
  have hp : (kmem_cache_stats demo_used.1 demo_used.2.w).page_cnt = 2 := by decide!
  obtain ⟨_, k2, h2, _, h4⟩ :=
    kmem_cache_remove_returns_pages demo_used.1 demo_used.2 [2, 1] (by decide!)
      ⟨by decide, by decide!, by decide!⟩ (by decide!) (by decide!)
  refine ⟨by decide!, hn, hp, k2, h2, ?_⟩
  rw [h4, hn, hp]

end Slab

namespace Buddy

/-! ## Theorems on merging, buddy_init and insert_free_list -/

/-- C21 (the code departs from the claim): in every state a merge step of
put_page_to_freelist marks the LOWER-addressed of pp and its buddy as
compound-tail and goes on with the HIGHER-addressed page as head.  On four
pages (one block of order 2): alloc_pages(0) hands out page 3, and
free_pages(3, 0) merges it with its free buddy 2 into a block of order 1 whose
head is page 3, page 2 being the tail; the block is inserted as (3, 1), not
(2, 1), and does not merge with the block (0, 1). -/
theorem merge_keeps_higher_page :
    (∀ n pp order s, merge_loop (n + 1) pp order s =
      if page_is_free (s.pages (find_buddy_pfn pp order)) = true ∧
          get_page_order (s.pages (find_buddy_pfn pp order)) = order then
        merge_loop n (max pp (find_buddy_pfn pp order)) (order + 1)
          (set_page_tail (min pp (find_buddy_pfn pp order))
            (__remove_from_free_list (find_buddy_pfn pp order) s))
      else (pp, order, s)) ∧
    ((buddy_init all_free_table 4).bind (fun s => match alloc_pages 0 s with
        | Result.ok (some p) s1 => some (p, free_blocks s1)
        | _ => none)) = some (3, [(2, 0), (0, 1)]) ∧
    ((buddy_init all_free_table 4).bind (alloc_then_free 0)).map
        (fun s => (free_blocks s, (s.pages 2).ptype, (s.pages 3).ptype, (s.pages 3).order))
      = some ([(3, 1), (0, 1)], PageType.comp_tail, PageType.comp_head, 1) := by
  refine ⟨?_, by decide!, by decide!⟩
  intro n pp order s
  simp only [merge_loop]
  by_cases hc : page_is_free (s.pages (find_buddy_pfn pp order)) = true ∧
      get_page_order (s.pages (find_buddy_pfn pp order)) = order
  · rw [if_pos hc, if_pos hc]
    by_cases hgt : pp > find_buddy_pfn pp order
    · rw [if_pos hgt, max_eq_left (le_of_lt hgt), min_eq_right (le_of_lt hgt)]
    · rw [if_neg hgt, max_eq_right (not_lt.mp hgt), min_eq_left (not_lt.mp hgt)]
  · rw [if_neg hc, if_neg hc]

/-- Over a page table without a page in use the inner loop of __buddy_init
runs up to its bound. -/
theorem last_free_page_all_free (n pfn : Nat) :
    last_free_page all_free_table n pfn = pfn + n := by
  induction n generalizing pfn with
  | zero => rfl
  | succ n ih =>
    have h : (all_free_table (pfn + 1)).pp_ref = 0 := rfl
    simp only [last_free_page, h, if_true]
    rw [ih]
    omega

/-- The scanning loop of __buddy_init stops at the end of the page table or
at MAX_NORMAL_PFN. -/
theorem buddy_scan_done (fuel pfn : Nat) (s : State)
    (h : ¬ (pfn < s.npages ∧ pfn < MAX_NORMAL_PFN)) : buddy_scan fuel pfn s = some s := by
  cases fuel <;> simp only [buddy_scan, h, if_false]

/-- One round of the scanning loop of __buddy_init at a free page: the run
that starts there is inserted and the scan goes on behind it. -/
theorem buddy_scan_run (fuel pfn end_ : Nat) (s s1 : State) (h1 : pfn < s.npages)
    (h2 : pfn < MAX_NORMAL_PFN) (h3 : (s.pages pfn).pp_ref = 0)
    (hend : last_free_page s.pages (s.npages - 1 - pfn) pfn = end_)
    (hins : insert_free_list pfn end_ s = some s1) :
    buddy_scan (fuel + 1) pfn s = buddy_scan fuel (end_ + 1) s1 := by
  have hc : pfn < s.npages ∧ pfn < MAX_NORMAL_PFN := ⟨h1, h2⟩
  have hn : ¬ (s.pages pfn).pp_ref ≠ 0 := by rw [h3]; exact fun h => h rfl
  simp only [buddy_scan, hc, hn, if_true, if_false, and_self, hend, hins]

/-- C22 (the code departs from the claim): over a page table of 0x10001 pages
that are all free, the inner loop of __buddy_init, bounded by npages - 1 only,
runs the first run of free pages up to page frame 0x10000, and
insert_free_list inserts the whole run: page frame 0x10000 = MAX_NORMAL_PFN is
on free list 0 and num_free_pages is 0x10001, one more than the number of
free frames below MAX_NORMAL_PFN. -/
theorem buddy_init_beyond_max_normal_pfn :
    (buddy_init all_free_table (MAX_NORMAL_PFN + 1)).map
      (fun s => (num_free_pages s, s.area.free_list 0, s.area.free_cnt 10))
      = some (MAX_NORMAL_PFN + 1, [MAX_NORMAL_PFN], 64) := by
  have hins : (insert_free_list 0 0x10000
      { pages := all_free_table, npages := 0x10001, area := empty_area }).map
        (fun s => (s.npages, num_free_pages s, s.area.free_list 0, s.area.free_cnt 10))
      = some (0x10001, 0x10001, [0x10000], 64) := by
    decide!
  obtain ⟨s1, hs1, hp⟩ := Option.map_eq_some'.mp hins
  simp only [Prod.mk.injEq] at hp
  obtain ⟨hn, hf, hl0, hc⟩ := hp
  have hscan : buddy_scan (0xFFFF + 1) 0
      { pages := all_free_table, npages := 0x10001, area := empty_area } = some s1 := by
    rw [buddy_scan_run 0xFFFF 0 0x10000 _ s1 (by show 0 < 0x10001; omega)
      (by unfold MAX_NORMAL_PFN; omega) rfl
      ((last_free_page_all_free _ _).trans (by show 0 + (0x10001 - 1 - 0) = 0x10000; omega)) hs1]
    apply buddy_scan_done
    rw [hn]
    omega
  have hinit : buddy_init all_free_table (MAX_NORMAL_PFN + 1) = some s1 := by
    unfold buddy_init MAX_NORMAL_PFN
    rw [show min (0x10000 + 1) 0x10000 = 0xFFFF + 1 from by omega]
    exact hscan
  rw [hinit]
  simp only [Option.map_some', hf, hl0, hc, MAX_NORMAL_PFN]

/-- find_first_set_bit finds no bit when the low nibble is 0. -/
theorem find_first_set_bit_low_nibble (x : Nat) (h : x % 16 = 0) : find_first_set_bit x = 32 := by
  simp [find_first_set_bit, find_first_set_bit_loop, h]

/-- The inner loop of insert_free_list ends at an order that fits the run,
when nothing wraps. -/
theorem fit_order_spec (start end_ : Nat) (h1 : start ≤ end_) (h2 : end_ + 1 < 2 ^ 32) (o : Nat)
    (h3 : start + 2 ^ o < 2 ^ 32) :
    ∃ o', fit_order start end_ o = some o' ∧ o' ≤ o ∧ start + 2 ^ o' ≤ end_ + 1 := by
  induction o with
  | zero =>
    refine ⟨0, ?_, le_refl _, by omega⟩
    simp only [fit_order]
    rw [Nat.mod_eq_of_lt (by omega), Nat.mod_eq_of_lt h2, if_neg (by omega)]
  | succ o ih =>
    have hpow : 2 ^ o < 2 ^ (o + 1) := Nat.pow_lt_pow_right (by decide) (Nat.lt_succ_self o)
    simp only [fit_order]
    rw [Nat.mod_eq_of_lt h3, Nat.mod_eq_of_lt h2]
    by_cases hgt : start + 2 ^ (o + 1) > end_ + 1
    · rw [if_pos hgt]
      obtain ⟨o', e1, e2, e3⟩ := ih (by omega)
      exact ⟨o', e1, by omega, e3⟩
    · rw [if_neg hgt]
      exact ⟨o + 1, rfl, le_refl _, by omega⟩

/-- The outer loop of insert_free_list, when nothing wraps: it ends, it
inserts the blocks of its trace, and these follow one another from `start` to
`end`, with orders below PAGE_MAX_ORDER. -/
theorem insert_free_list_loop_spec (end_ : Nat) (h2 : end_ + 2 ^ (PAGE_MAX_ORDER - 1) < 2 ^ 32) :
    ∀ (fuel start : Nat) (s : State), start ≤ end_ + 1 → end_ + 1 - start ≤ fuel →
      insert_free_list_loop fuel start end_ s
        = some ((insert_free_list_blocks fuel start end_).foldl insert_block s) ∧
      Consecutive start (insert_free_list_blocks fuel start end_) (end_ + 1) ∧
      ∀ b, b ∈ insert_free_list_blocks fuel start end_ → b.2 ≤ PAGE_MAX_ORDER - 1 := by
  have hp : 2 ^ (PAGE_MAX_ORDER - 1) = 1024 := by decide
  rw [hp] at h2
  intro fuel
  induction fuel with
  | zero =>
    intro start s hle hfuel
    have hgt : ¬ start ≤ end_ := by omega
    simp only [insert_free_list_loop, insert_free_list_blocks, hgt, if_false, List.foldl_nil,
      Consecutive, List.not_mem_nil, false_implies, implies_true, and_true, true_and]
    omega
  | succ fuel ih =>
    intro start s hle hfuel
    by_cases hse : start ≤ end_
    · have hmin : min (PAGE_MAX_ORDER - 1) (find_first_set_bit start) ≤ 10 := by
        have : PAGE_MAX_ORDER - 1 = 10 := by decide
        rw [this]; exact Nat.min_le_left _ _
      have hpow : 2 ^ min (PAGE_MAX_ORDER - 1) (find_first_set_bit start) ≤ 2 ^ 10 :=
        Nat.pow_le_pow_right (by decide) hmin
      obtain ⟨o', e1, e2, e3⟩ := fit_order_spec start end_ hse (by omega)
        (min (PAGE_MAX_ORDER - 1) (find_first_set_bit start)) (by omega)
      have hpos : 0 < 2 ^ o' := Nat.two_pow_pos o'
      have hmod : (start + 2 ^ o') % 2 ^ 32 = start + 2 ^ o' := Nat.mod_eq_of_lt (by omega)
      obtain ⟨i1, i2, i3⟩ := ih (start + 2 ^ o') (insert_block s (start, o')) e3 (by omega)
      simp only [insert_free_list_loop, insert_free_list_blocks, hse, if_true, e1, hmod,
        List.foldl_cons, Consecutive, true_and]
      refine ⟨i1, i2, ?_⟩
      intro b hb
      rcases List.mem_cons.mp hb with hb | hb
      · rw [hb]
        have : PAGE_MAX_ORDER - 1 = 10 := by decide
        simp only [this]
        omega
      · exact i3 b hb
    · simp only [insert_free_list_loop, insert_free_list_blocks, hse, if_false, List.foldl_nil,
        Consecutive, List.not_mem_nil, false_implies, implies_true, and_true, true_and]
      omega

/-- Consecutive blocks end where they are said to end, not before their
start. -/
theorem consecutive_le (blocks : List (Nat × Nat)) :
    ∀ a e, Consecutive a blocks e → a ≤ e := by
  induction blocks with
  | nil => intro a e h; exact le_of_eq h
  | cons b rest ih =>
    intro a e h
    exact Nat.le_trans (Nat.le_add_right _ _) (ih _ _ h.2)

/-- Consecutive blocks cover every frame of their range once and no other
frame. -/
theorem consecutive_cover (q : Nat) (blocks : List (Nat × Nat)) :
    ∀ a e, Consecutive a blocks e →
      cover_count q blocks = if a ≤ q ∧ q < e then 1 else 0 := by
  induction blocks with
  | nil =>
    intro a e h
    simp only [Consecutive] at h
    subst h
    simp only [cover_count, List.filter_nil, List.length_nil]
    rw [if_neg (show ¬ (a ≤ q ∧ q < a) by omega)]
  | cons b rest ih =>
    intro a e h
    obtain ⟨hb, hrest⟩ := h
    have hle := consecutive_le rest _ _ hrest
    have hr := ih _ _ hrest
    have hpos : 0 < 2 ^ b.2 := Nat.two_pow_pos _
    simp only [cover_count] at hr ⊢
    rw [List.filter_cons]
    generalize 2 ^ b.2 = w at *
    subst hb
    by_cases hin : b.1 ≤ q ∧ q < b.1 + w
    · have hd : decide (b.1 ≤ q ∧ q < b.1 + w) = true := decide_eq_true hin
      rw [hd]
      simp only [if_true, List.length_cons]
      rw [hr, if_neg (show ¬ (b.1 + w ≤ q ∧ q < e) by omega),
        if_pos (show b.1 ≤ q ∧ q < e by omega)]
    · have hd : decide (b.1 ≤ q ∧ q < b.1 + w) = false := decide_eq_false hin
      rw [hd]
      simp only [Bool.false_eq_true, if_false]
      rw [hr]
      by_cases hq : b.1 + w ≤ q ∧ q < e
      · rw [if_pos hq, if_pos (show b.1 ≤ q ∧ q < e by omega)]
      · rw [if_neg hq, if_neg (show ¬ (b.1 ≤ q ∧ q < e) by omega)]

/-- The counter after a sequence of insertions: the sizes of the blocks are
added in 32 bits. -/
theorem foldl_insert_block_num (blocks : List (Nat × Nat)) :
    ∀ (a e : Nat) (s : State), Consecutive a blocks e → blocks ≠ [] →
      (blocks.foldl insert_block s).area.num_free_pages
        = (s.area.num_free_pages + (e - a)) % 2 ^ 32 := by
  induction blocks with
  | nil => intro a e s _ hne; exact absurd rfl hne
  | cons b rest ih =>
    intro a e s h _
    obtain ⟨hb, hrest⟩ := h
    have hle := consecutive_le rest _ _ hrest
    have hpos : 0 < 2 ^ b.2 := Nat.two_pow_pos _
    have hone : (insert_block s b).area.num_free_pages
        = (s.area.num_free_pages + 2 ^ b.2) % 2 ^ 32 := by
      simp [insert_block, __insert_to_free_list, set_page_head, set_page, get_page_order]
    simp only [List.foldl_cons]
    cases hr : rest with
    | nil =>
      subst hr
      simp only [Consecutive] at hrest
      simp only [List.foldl_nil]
      rw [hone]
      generalize 2 ^ b.2 = w at *
      have : e - a = w := by omega
      rw [this]
    | cons c rest2 =>
      rw [← hr, ih _ _ (insert_block s b) hrest (by rw [hr]; exact List.cons_ne_nil _ _), hone]
      generalize 2 ^ b.2 = w at *
      have : e - a = w + (e - (a + w)) := by omega
      rw [this]
      omega

/-- C23 (amended): for every start <= end with end + 2^(PAGE_MAX_ORDER - 1)
below 2^32, insert_free_list(start, end) terminates with every order it picks
in 0 .. PAGE_MAX_ORDER - 1; the blocks it inserts follow one another from
start to end (the first starts at start, each next one where the previous one
ends, the last ends at end), so every frame of [start, end] lies in exactly
one block and no other frame lies in any; and num_free_pages has grown
by end - start + 1 in 32 bits. -/
theorem insert_free_list_spec (start end_ : Nat) (s : State) (h1 : start ≤ end_)
    (h2 : end_ + 2 ^ (PAGE_MAX_ORDER - 1) < 2 ^ 32) :
    insert_free_list start end_ s
      = some ((insert_free_list_blocks (end_ + 1 - start) start end_).foldl insert_block s) ∧
    Consecutive start (insert_free_list_blocks (end_ + 1 - start) start end_) (end_ + 1) ∧
    (∀ b, b ∈ insert_free_list_blocks (end_ + 1 - start) start end_ → b.2 ≤ PAGE_MAX_ORDER - 1) ∧
    (∀ q, cover_count q (insert_free_list_blocks (end_ + 1 - start) start end_)
      = if start ≤ q ∧ q ≤ end_ then 1 else 0) ∧
    ((insert_free_list_blocks (end_ + 1 - start) start end_).foldl insert_block s).area.num_free_pages
      = (s.area.num_free_pages + (end_ - start + 1)) % 2 ^ 32 := by
  obtain ⟨e1, e2, e3⟩ := insert_free_list_loop_spec end_ h2 (end_ + 1 - start) start s
    (by omega) (le_refl _)
  refine ⟨e1, e2, e3, ?_, ?_⟩
  · intro q
    rw [consecutive_cover q _ _ _ e2]
    by_cases hq : start ≤ q ∧ q ≤ end_
    · rw [if_pos hq, if_pos (show start ≤ q ∧ q < end_ + 1 by omega)]
    · rw [if_neg hq, if_neg (show ¬ (start ≤ q ∧ q < end_ + 1) by omega)]
  · have hne : insert_free_list_blocks (end_ + 1 - start) start end_ ≠ [] := by
      intro hnil
      rw [hnil] at e2
      simp only [Consecutive] at e2
      omega
    rw [foldl_insert_block_num _ _ _ s e2 hne]
    have : end_ + 1 - start = end_ - start + 1 := by omega
    rw [this]

/-- C23 (amended) at a concrete run: insert_free_list(3, 20) terminates and
inserts the blocks (3, 0), (4, 2), (8, 3), (16, 2), (20, 0); num_free_pages
grows from 0 to 18. -/
theorem insert_free_list_spec_witness :
    insert_free_list_blocks (20 + 1 - 3) 3 20 = [(3, 0), (4, 2), (8, 3), (16, 2), (20, 0)] ∧
    ((insert_free_list 3 20 { pages := all_free_table, npages := 32, area := empty_area }).map
      (fun s => s.area.num_free_pages)) = some 18 := by
  obtain ⟨e1, _, _, _, e5⟩ := insert_free_list_spec 3 20
    { pages := all_free_table, npages := 32, area := empty_area } (by decide) (by decide)
  refine ⟨by decide, ?_⟩
  rw [e1, Option.map_some', e5]
  rfl

/-- The outer loop of insert_free_list never ends when it starts 16 frames
below 2^32: every start it reaches is 1008 modulo 1024. -/
theorem insert_free_list_loop_wraps (fuel : Nat) :
    ∀ (start : Nat) (s : State), start % 1024 = 1008 → start < 2 ^ 32 →
      insert_free_list_loop fuel start 0xFFFFFFF0 s = none := by
  induction fuel with
  | zero =>
    intro start s h1 h2
    simp only [insert_free_list_loop]
    rw [if_pos (show start ≤ 0xFFFFFFF0 by omega)]
  | succ fuel ih =>
    intro start s h1 h2
    have hff : find_first_set_bit start = 32 := find_first_set_bit_low_nibble start (by omega)
    have hfit : fit_order start 0xFFFFFFF0 (min (PAGE_MAX_ORDER - 1) 32) = some 10 := by
      have hm : min (PAGE_MAX_ORDER - 1) 32 = 9 + 1 := by decide
      rw [hm]
      simp only [fit_order]
      rw [if_neg (show ¬ ((start + 2 ^ (9 + 1)) % 2 ^ 32 > (0xFFFFFFF0 + 1) % 2 ^ 32) by omega)]
    simp only [insert_free_list_loop]
    rw [if_pos (show start ≤ 0xFFFFFFF0 by omega), hff, hfit]
    exact ih _ _ (by omega) (Nat.mod_lt _ (by decide))

/-- C23 (counterexample): insert_free_list(0xFFFFFFF0, 0xFFFFFFF0), a run of
one frame whose end + 1 does not overflow: find_first_set_bit gives 32, the
order starts at 10, and `start + (1 << 10)` wraps to 0x3F0, which is not
above end + 1, so the order stays 10: a block of 1024 frames is inserted for
one frame, `start` wraps to 0x3F0, and the loop goes on and never ends,
whatever number of iterations is allowed. -/
theorem insert_free_list_wraps :
    fit_order 0xFFFFFFF0 0xFFFFFFF0 (min (PAGE_MAX_ORDER - 1) (find_first_set_bit 0xFFFFFFF0))
      = some 10 ∧
    insert_free_list_blocks 2 0xFFFFFFF0 0xFFFFFFF0 = [(0xFFFFFFF0, 10), (0x3F0, 10)] ∧
    (0xFFFFFFF0 : Nat) + 1 < 2 ^ 32 ∧
    ∀ fuel s, insert_free_list_loop fuel 0xFFFFFFF0 0xFFFFFFF0 s = none := by
  refine ⟨by decide, by decide, by decide, ?_⟩
  intro fuel s
  exact insert_free_list_loop_wraps fuel _ s (by decide) (by decide)

/-- C4 (the code departs from the claim): over 16 free pages the calls
alloc_pages(0) three times, alloc_pages(1), free_pages(10, 1), alloc_pages(1),
free_pages(12, 1) return the pages 15, 14, 13, 10, 12.  The merge of page 10
with its buddy 8 keeps page 10 as head of a block of order 2, which the next
alloc_pages(1) splits into the block (10, 1) and page 12, although page 12 is
still linked on free list 0; after free_pages(12, 1) page 12 is the first
entry of free list 0 and carries order 1.  Then free list 0 is the smallest
non-empty list for k = 0, and alloc_pages(0) returns page 12 with free_cnt[0]
unchanged, free_cnt[1] one less and num_free_pages two less (13 to 11). -/
theorem alloc_pages_counts_overlap :
    ((buddy_init all_free_table 16).bind
        (call_seq [Call.alloc 0, Call.alloc 0, Call.alloc 0, Call.alloc 1, Call.free 10 1])).map
      (fun r => (r.1, free_blocks r.2)) = some ([15, 14, 13, 10], [(12, 0), (10, 2), (0, 3)]) ∧
    sixteen_pages_run.map (fun r => (r.1, free_cnt_vector r.2, num_free_pages r.2))
      = some ([15, 14, 13, 10, 12], [1, 2, 0, 1, 0, 0, 0, 0, 0, 0, 0], 13) ∧
    sixteen_pages_run.map
        (fun r => (r.2.area.free_list 0, (r.2.pages 12).order, (r.2.pages 12).pp_ref))
      = some ([12], 1, 0) ∧
    (sixteen_pages_run.bind (fun r => call_seq [Call.alloc 0] r.2)).map
        (fun r => (r.1, free_cnt_vector r.2, num_free_pages r.2, (r.2.pages 12).pp_ref))
      = some ([12], [1, 1, 0, 1, 0, 0, 0, 0, 0, 0, 0], 11, 1) := by
  decide!

end Buddy

namespace Slab

/-! ## Theorems on the slab layout and the slab header -/

/-- The layout of a slab fits in one page, and every offset fits the 12-bit
field, for every object size whose sum with the entry size does not wrap. -/
theorem calc_obj_per_slab_fits (objsize : Nat) (h : objsize + sizeof_fte < 2 ^ 32) :
    ∃ N, calc_obj_per_slab objsize = some N ∧
      sizeof_slab + sizeof_fte * N + N * objsize ≤ PGSIZE ∧
      ∀ i, i < N → i * objsize < 2 ^ 12 := by
  have hne : ¬ (objsize + sizeof_fte) % 2 ^ 32 = 0 := by
    rw [Nat.mod_eq_of_lt h]; simp only [sizeof_fte]; omega
  refine ⟨(PGSIZE - sizeof_slab) / ((objsize + sizeof_fte) % 2 ^ 32), ?_, ?_, ?_⟩
  · simp only [calc_obj_per_slab, hne, if_false]
  · rw [Nat.mod_eq_of_lt h]
    have hm := Nat.div_mul_le_self (PGSIZE - sizeof_slab) (objsize + sizeof_fte)
    simp only [PGSIZE, sizeof_slab, sizeof_fte] at *
    nlinarith [hm]
  · intro i hi
    rw [Nat.mod_eq_of_lt h] at hi
    have hm := Nat.div_mul_le_self (PGSIZE - sizeof_slab) (objsize + sizeof_fte)
    simp only [PGSIZE, sizeof_slab, sizeof_fte] at *
    have h1 : (i + 1) * (objsize + 2) ≤ 4072 / (objsize + 2) * (objsize + 2) :=
      Nat.mul_le_mul_right _ hi
    nlinarith [hm, h1]

/-- C24 (the code departs from the claim): for objsize = 2^32 - 2 the divisor
`objsize + sizeof(slab_fte_t)` wraps to 0 and the division is undefined; for
objsize = 2^32 - 1 it wraps to 1, calc_obj_per_slab returns 4072, and neither
does the layout fit in a page nor is the offset 1 * objsize below 2^12. -/
theorem calc_obj_per_slab_wraps :
    calc_obj_per_slab (2 ^ 32 - 2) = none ∧
    calc_obj_per_slab (2 ^ 32 - 1) = some 4072 ∧
    ¬ (sizeof_slab + sizeof_fte * 4072 + 4072 * (2 ^ 32 - 1) ≤ PGSIZE) ∧
    ¬ (1 * (2 ^ 32 - 1) < 2 ^ 12) := by
  decide

/-- C25 (the code departs from the claim): in the memory of C16 the cache at
100 (obj_per_slab = 2) allocates 4026544155 and releases it, which links the
slab of page frame 3 on its partial list; two more allocations, served from
that slab, return.  In the state reached the slab is on the partial list with
active = 4 > 2 and fte_index = start, and the next kmem_cache_alloc takes it
from the partial list, finds no entry left and panics. -/
theorem slab_active_exceeds_obj_per_slab :
    (other_cache_world.bind (fun w => run_on 2000 w 100 false false
        [Op.alloc, Op.free 4026544155, Op.alloc, Op.alloc])).map
      (fun r => ((r.w.caches 100).obj_per_slab, slab_lists 100 r.w))
      = some (2, ([], [(page2kva 3, 4), (page2kva 2, 1)], [])) ∧
    (other_cache_world.bind (fun w => run_on 2000 w 100 false false
        [Op.alloc, Op.free 4026544155, Op.alloc, Op.alloc])).map
      (fun r => ((r.w.slabs (page2kva 3)).fte_index, (r.w.slabs (page2kva 3)).start,
        outcome (kmem_cache_alloc 100 r.w)))
      = some (4026544160, 4026544160, Outcome.panicked) := by
  decide!

/-- C11 (the code departs from the claim): over `stale_world`, after
kmem_cache_init a cache for 2000-byte objects is created (descriptor
4026544250 in the `cache_cache` slab of page frame 3; num_free_pages is 3
right after the creation).  Its first allocation takes page frame 2 for a slab
and pops the stale entry 0x0FFF: the object 4026544155 lies in page frame 3.
Its release is done on KMEM2SLAB(4026544155), the slab of `cache_cache`, which
moves to the free list of the cache.  Every slab of the cache was obtained
through kmem_cache_alloc, page_cnt is 2 and num_free_pages is 2.
kmem_cache_remove gives both pages back (num_free_pages 4, not the 3 it was
right after the creation) and then stops on the assertion of kmem_cache_free,
because the slab that holds the descriptor is free. -/
theorem kmem_cache_remove_foreign_slab :
    stale_created.map (fun x => (x.1, x.2.cache_list, Buddy.num_free_pages x.2.w.buddy))
      = some (4026544250, [4026544250, cache_cache], 3) ∧
    stale_created.map (fun x => slab_lists cache_cache x.2.w)
      = some ([], [(page2kva 3, 1)], []) ∧
    (stale_used [Op.alloc]).map (fun x => (x.2.1, KMEM2SLAB 4026544155, KMEM2SLAB x.1))
      = some ([4026544155], page2kva 3, page2kva 3) ∧
    (stale_used [Op.alloc, Op.free 4026544155]).map (fun x => slab_lists x.1 x.2.2.w)
      = some ([], [(page2kva 2, 1)], [(page2kva 3, 0)]) ∧
    (stale_used [Op.alloc, Op.free 4026544155]).map
        (fun x => (Buddy.num_free_pages x.2.2.w.buddy, (kmem_cache_stats x.1 x.2.2.w).page_cnt,
          koutcome (kmem_cache_remove x.1 x.2.2)))
      = some (2, 2, Outcome.panicked) ∧
    ((stale_used [Op.alloc, Op.free 4026544155]).bind
        (fun x => kstate (kmem_cache_remove x.1 x.2.2))).map
        (fun k => (Buddy.num_free_pages k.w.buddy, k.cache_list))
      = some (4, [cache_cache]) := by
  refine ⟨by decide!, by decide!, by decide!, by decide!, by decide!, by decide!⟩

end Slab

namespace IntrusiveList

/-! ## Theorems on the intrusive list -/

/-- Reading `next` after an assignment to a `next` field. -/
theorem set_next_next (h : Heap) (p v n : Nat) :
    ((set_next h p v) n).next = if n = p then v else (h n).next := by
  simp only [set_next]; split <;> rfl

/-- An assignment to a `next` field leaves the `prev` fields. -/
theorem set_next_prev (h : Heap) (p v n : Nat) : ((set_next h p v) n).prev = (h n).prev := by
  simp only [set_next]; split <;> rfl

/-- Reading `prev` after an assignment to a `prev` field. -/
theorem set_prev_prev (h : Heap) (p v n : Nat) :
    ((set_prev h p v) n).prev = if n = p then v else (h n).prev := by
  simp only [set_prev]; split <;> rfl

/-- An assignment to a `prev` field leaves the `next` fields. -/
theorem set_prev_next (h : Heap) (p v n : Nat) : ((set_prev h p v) n).next = (h n).next := by
  simp only [set_prev]; split <;> rfl

/-- The `next` pointers after __list_add. -/
theorem list_add_next (x head : Nat) (h : Heap) (n : Nat) :
    ((__list_add x head h) n).next =
      if n = head then x else if n = x then (h head).next else (h n).next := by
  simp only [__list_add, set_next_next, set_prev_next]

/-- The `prev` pointers after __list_add of a node other than the sentinel. -/
theorem list_add_prev (x head : Nat) (h : Heap) (hx : x ≠ head) (n : Nat) :
    ((__list_add x head h) n).prev =
      if n = (h head).next then x else if n = x then head else (h n).prev := by
  have hx' : ¬ head = x := fun e => hx e.symm
  simp only [__list_add, set_next_next, set_prev_next, set_next_prev, set_prev_prev, hx', if_false]

/-- The `next` pointers after __list_add_tail of a node other than the
sentinel. -/
theorem list_add_tail_next (x head : Nat) (h : Heap) (hx : x ≠ head) (n : Nat) :
    ((__list_add_tail x head h) n).next =
      if n = (h head).prev then x else if n = x then head else (h n).next := by
  have hx' : ¬ head = x := fun e => hx e.symm
  simp only [__list_add_tail, set_next_next, set_prev_next, set_next_prev, set_prev_prev, hx',
    if_false]

/-- The `prev` pointers after __list_add_tail. -/
theorem list_add_tail_prev (x head : Nat) (h : Heap) (n : Nat) :
    ((__list_add_tail x head h) n).prev =
      if n = head then x else if n = x then (h head).prev else (h n).prev := by
  simp only [__list_add_tail, set_next_next, set_prev_next, set_next_prev, set_prev_prev]

/-- The `next` pointers after __list_del. -/
theorem list_del_next (x : Nat) (h : Heap) (n : Nat) :
    ((__list_del x h) n).next =
      if n = x then NULL else if n = (h x).prev then (h x).next else (h n).next := by
  have e : (if x = (h x).next then (h x).prev else (h x).prev) = (h x).prev := ite_self _
  simp only [__list_del, set_next_next, set_prev_next, set_next_prev, set_prev_prev, e]

/-- The `prev` pointers after __list_del. -/
theorem list_del_prev (x : Nat) (h : Heap) (n : Nat) :
    ((__list_del x h) n).prev =
      if n = x then NULL else if n = (h x).next then (h x).prev else (h n).prev := by
  simp only [__list_del, set_next_next, set_prev_next, set_next_prev, set_prev_prev]

/-- A chain stays a chain in a memory that agrees on the `next` fields of its
sources and on the `prev` fields of its targets. -/
theorem linked_frame (h h' : Heap) (l : List Nat) :
    ∀ a e, Linked h a l e → (∀ n, n ∈ a :: l → (h' n).next = (h n).next) →
      (∀ n, n ∈ l ++ [e] → (h' n).prev = (h n).prev) → Linked h' a l e := by
  induction l with
  | nil =>
    intro a e hl hn hp
    exact ⟨(hn a (List.mem_cons_self _ _)).trans hl.1,
      (hp e (by simp)).trans hl.2⟩
  | cons y ys ih =>
    intro a e hl hn hp
    obtain ⟨h1, h2, h3⟩ := hl
    refine ⟨(hn a (List.mem_cons_self _ _)).trans h1, (hp y (by simp)).trans h2, ?_⟩
    apply ih y e h3
    · intro n hmem; exact hn n (List.mem_cons_of_mem _ hmem)
    · intro n hmem
      apply hp n
      simp only [List.cons_append, List.mem_cons]
      exact Or.inr hmem

/-- The node before `e` in a chain from `a` is `a` or a node of the chain. -/
theorem linked_last_mem (h : Heap) (l : List Nat) :
    ∀ a e, Linked h a l e → (h e).prev ∈ a :: l := by
  induction l with
  | nil => intro a e hl; rw [hl.2]; exact List.mem_cons_self _ _
  | cons y ys ih =>
    intro a e hl
    exact List.mem_cons_of_mem _ (ih y e hl.2.2)

/-- The node before a member `x` of a chain from `a` is `a` or a node of the
chain before `x`. -/
theorem linked_prev_mem (h : Heap) (x : Nat) (l1 : List Nat) :
    ∀ a l2 e, Linked h a (l1 ++ x :: l2) e → (h x).prev ∈ a :: l1 := by
  induction l1 with
  | nil => intro a l2 e hl; rw [hl.2.1]; exact List.mem_cons_self _ _
  | cons y ys ih =>
    intro a l2 e hl
    exact List.mem_cons_of_mem _ (ih y l2 e hl.2.2)

/-- The node after a member `x` of a chain to `e` is a node of the chain
behind `x` or `e`. -/
theorem linked_next_mem (h : Heap) (x : Nat) (l1 : List Nat) :
    ∀ a l2 e, Linked h a (l1 ++ x :: l2) e → (h x).next ∈ l2 ++ [e] := by
  induction l1 with
  | nil =>
    intro a l2 e hl
    obtain ⟨_, _, h3⟩ := hl
    cases l2 with
    | nil => rw [h3.1]; simp
    | cons z zs => rw [h3.1]; simp
  | cons y ys ih =>
    intro a l2 e hl
    exact ih y l2 e hl.2.2

/-- Every node of a chain but the end is the `prev` of its `next`, and every
node but the start is the `next` of its `prev`. -/
theorem linked_wf (h : Heap) (l : List Nat) :
    ∀ a e, Linked h a l e →
      (∀ n, n ∈ a :: l → (h (h n).next).prev = n) ∧
      (∀ n, n ∈ l ++ [e] → (h (h n).prev).next = n) := by
  induction l with
  | nil =>
    intro a e hl
    constructor
    · intro n hn
      simp only [List.mem_singleton] at hn
      subst hn
      rw [hl.1, hl.2]
    · intro n hn
      simp only [List.nil_append, List.mem_singleton] at hn
      subst hn
      rw [hl.2, hl.1]
  | cons y ys ih =>
    intro a e hl
    obtain ⟨h1, h2, h3⟩ := hl
    obtain ⟨i1, i2⟩ := ih y e h3
    constructor
    · intro n hn
      rcases List.mem_cons.mp hn with hn | hn
      · subst hn; rw [h1, h2]
      · exact i1 n hn
    · intro n hn
      simp only [List.cons_append] at hn
      rcases List.mem_cons.mp hn with hn | hn
      · subst hn; rw [h2, h1]
      · exact i2 n hn

/-- Following `next` from the start of a chain that ends at the sentinel
meets the nodes of the chain, in order. -/
theorem linked_walk (h : Heap) (head : Nat) (l : List Nat) :
    ∀ a fuel, Linked h a l head → head ∉ l → l.length < fuel → walk h head fuel a = l := by
  induction l with
  | nil =>
    intro a fuel hl _ hf
    cases fuel with
    | zero => rfl
    | succ f => simp only [walk, hl.1, if_true]
  | cons y ys ih =>
    intro a fuel hl hnot hf
    cases fuel with
    | zero => simp at hf
    | succ f =>
      obtain ⟨h1, _, h3⟩ := hl
      have hy : ¬ y = head := fun e => hnot (e ▸ List.mem_cons_self _ _)
      simp only [walk, h1, hy, if_false]
      rw [ih y f h3 (fun hm => hnot (List.mem_cons_of_mem _ hm))
        (by simp only [List.length_cons] at hf; omega)]

/-- list_init makes the list of the empty sequence. -/
theorem is_list_init (head : Nat) (h : Heap) : IsList (__list_init head h) head [] := by
  refine ⟨List.nodup_singleton head, ?_, ?_⟩
  · simp only [__list_init, set_prev_next, set_next_next, if_true]
  · simp only [__list_init, set_prev_prev, if_true]

/-- The list is empty, as list_empty tests it, iff its sequence is. -/
theorem is_list_empty (head : Nat) (h : Heap) (l : List Nat) (hl : IsList h head l) :
    __list_empty head h = l.isEmpty := by
  obtain ⟨hnd, hlk⟩ := hl
  cases l with
  | nil => simp only [__list_empty, hlk.1, beq_self_eq_true, List.isEmpty_nil]
  | cons y ys =>
    have hy : y ≠ head := by
      intro e
      have := (List.nodup_cons.mp hnd).1
      exact this (e ▸ List.mem_cons_self _ _)
    simp only [__list_empty, hlk.1, List.isEmpty_cons, beq_eq_false_iff_ne, ne_eq]
    exact hy

/-- list_add of a node that is not linked puts it in front. -/
theorem is_list_add (x head : Nat) (h : Heap) (l : List Nat) (hl : IsList h head l)
    (hx : x ∉ head :: l) : IsList (__list_add x head h) head (x :: l) := by
  obtain ⟨hnd, hlk⟩ := hl
  have hxh : x ≠ head := fun e => hx (e ▸ List.mem_cons_self _ _)
  have hxl : x ∉ l := fun hm => hx (List.mem_cons_of_mem _ hm)
  have hhl : head ∉ l := (List.nodup_cons.mp hnd).1
  have hndl : l.Nodup := (List.nodup_cons.mp hnd).2
  refine ⟨?_, ?_⟩
  · refine List.nodup_cons.mpr ⟨?_, List.nodup_cons.mpr ⟨hxl, hndl⟩⟩
    intro hm
    rcases List.mem_cons.mp hm with e | hm
    · exact hxh e.symm
    · exact hhl hm
  · cases l with
    | nil =>
      obtain ⟨k1, k2⟩ := hlk
      refine ⟨?_, ?_, ?_, ?_⟩
      · rw [list_add_next]; simp only [if_true]
      · rw [list_add_prev _ _ _ hxh]; simp only [k1, hxh, if_false, if_true]
      · rw [list_add_next]; simp only [hxh, if_false, if_true, k1]
      · rw [list_add_prev _ _ _ hxh]; simp only [k1, if_true]
    | cons y ys =>
      obtain ⟨k1, k2, k3⟩ := hlk
      have hyh : y ≠ head := fun e => hhl (e ▸ List.mem_cons_self _ _)
      have hxy : x ≠ y := fun e => hxl (e ▸ List.mem_cons_self _ _)
      have hyys : y ∉ ys := (List.nodup_cons.mp hndl).1
      refine ⟨?_, ?_, ?_, ?_, ?_⟩
      · rw [list_add_next]; simp only [if_true]
      · rw [list_add_prev _ _ _ hxh]; simp only [k1, hxy, if_false, if_true]
      · rw [list_add_next]; simp only [hxh, if_false, if_true, k1]
      · rw [list_add_prev _ _ _ hxh]; simp only [k1, if_true]
      · apply linked_frame h _ ys y head k3
        · intro n hn
          have n1 : n ≠ head := fun e => hhl (e ▸ hn)
          have n2 : n ≠ x := fun e => hxl (e ▸ hn)
          rw [list_add_next]; simp only [n1, n2, if_false]
        · intro n hn
          have n1 : n ≠ y := by
            intro e
            rcases List.mem_append.mp hn with hm | hm
            · exact hyys (e ▸ hm)
            · exact hyh (e.symm.trans (List.mem_singleton.mp hm))
          have n2 : n ≠ x := by
            intro e
            rcases List.mem_append.mp hn with hm | hm
            · exact hxl (List.mem_cons_of_mem _ (e ▸ hm))
            · exact hxh (e.symm.trans (List.mem_singleton.mp hm))
          rw [list_add_prev _ _ _ hxh]; simp only [k1, n1, n2, if_false]

/-- A chain from `a` to `e` gets the node `x` as its new last node, before
the end `e'`, in a memory that redirects the last link. -/
theorem linked_append_last (h h' : Heap) (x e e' : Nat) (l : List Nat) :
    ∀ a, Linked h a l e → (a :: l).Nodup →
      (∀ n, n ∈ a :: l → n ≠ (h e).prev → (h' n).next = (h n).next) →
      (h' (h e).prev).next = x →
      (∀ n, n ∈ l → (h' n).prev = (h n).prev) →
      (h' x).prev = (h e).prev → (h' x).next = e' → (h' e').prev = x →
      Linked h' a (l ++ [x]) e' := by
  induction l with
  | nil =>
    intro a hl _ _ f2 _ f4 f5 f6
    obtain ⟨k1, k2⟩ := hl
    rw [k2] at f2 f4
    exact ⟨f2, f4, f5, f6⟩
  | cons y ys ih =>
    intro a hl hnd f1 f2 f3 f4 f5 f6
    obtain ⟨k1, k2, k3⟩ := hl
    have hlast := linked_last_mem h ys y e k3
    have ha : a ≠ (h e).prev := fun e1 => (List.nodup_cons.mp hnd).1 (e1 ▸ hlast)
    refine ⟨(f1 a (List.mem_cons_self _ _) ha).trans k1,
      (f3 y (List.mem_cons_self _ _)).trans k2, ?_⟩
    apply ih y k3 (List.nodup_cons.mp hnd).2
    · intro n hn hne; exact f1 n (List.mem_cons_of_mem _ hn) hne
    · exact f2
    · intro n hn; exact f3 n (List.mem_cons_of_mem _ hn)
    · exact f4
    · exact f5
    · exact f6

/-- list_add_tail of a node that is not linked puts it at the end. -/
theorem is_list_add_tail (x head : Nat) (h : Heap) (l : List Nat) (hl : IsList h head l)
    (hx : x ∉ head :: l) : IsList (__list_add_tail x head h) head (l ++ [x]) := by
  obtain ⟨hnd, hlk⟩ := hl
  have hxh : x ≠ head := fun e => hx (e ▸ List.mem_cons_self _ _)
  have hxl : x ∉ l := fun hm => hx (List.mem_cons_of_mem _ hm)
  have hhl : head ∉ l := (List.nodup_cons.mp hnd).1
  have hlast := linked_last_mem h l head head hlk
  have hpx : (h head).prev ≠ x := fun e => hx (e ▸ hlast)
  refine ⟨?_, ?_⟩
  · rw [← List.cons_append]
    refine List.Nodup.append hnd (List.nodup_singleton x) ?_
    intro n hn hn'
    rw [List.mem_singleton] at hn'
    exact hx (hn' ▸ hn)
  · apply linked_append_last h _ x head head l head hlk hnd
    · intro n hn hne
      have n2 : n ≠ x := fun e => hx (e ▸ hn)
      rw [list_add_tail_next _ _ _ hxh]; simp only [hne, n2, if_false]
    · rw [list_add_tail_next _ _ _ hxh]; simp only [if_true]
    · intro n hn
      have n1 : n ≠ head := fun e => hhl (e ▸ hn)
      have n2 : n ≠ x := fun e => hxl (e ▸ hn)
      rw [list_add_tail_prev]; simp only [n1, n2, if_false]
    · rw [list_add_tail_prev]; simp only [hxh, if_false, if_true]
    · rw [list_add_tail_next _ _ _ hxh]; simp only [hpx.symm, if_false, if_true]
    · rw [list_add_tail_prev]; simp only [if_true]

/-- A chain from `a` to `e` through `x` stays a chain without `x` in a memory
that links the neighbours of `x` to one another. -/
theorem linked_bypass (h h' : Heap) (x e : Nat) (l2 : List Nat) (l1 : List Nat) :
    ∀ a, Linked h a (l1 ++ x :: l2) e → (a :: (l1 ++ x :: l2)).Nodup →
      e ∉ l1 ++ x :: l2 →
      (∀ n, n ≠ x → n ≠ (h x).prev → (h' n).next = (h n).next) →
      (h' (h x).prev).next = (h x).next →
      (∀ n, n ≠ x → n ≠ (h x).next → (h' n).prev = (h n).prev) →
      (h' (h x).next).prev = (h x).prev →
      Linked h' a (l1 ++ l2) e := by
  induction l1 with
  | nil =>
    intro a hl hnd he f1 f2 f3 f4
    simp only [List.nil_append] at hl hnd he ⊢
    obtain ⟨k1, k2, k3⟩ := hl
    have hax : a ≠ x := fun e1 => (List.nodup_cons.mp hnd).1 (e1 ▸ List.mem_cons_self _ _)
    have hxl2 : x ∉ l2 := (List.nodup_cons.mp (List.nodup_cons.mp hnd).2).1
    have hal2 : a ∉ l2 := fun hm => (List.nodup_cons.mp hnd).1 (List.mem_cons_of_mem _ hm)
    have hex : e ≠ x := fun e1 => he (e1 ▸ List.mem_cons_self _ _)
    have hel2 : e ∉ l2 := fun hm => he (List.mem_cons_of_mem _ hm)
    rw [k2] at f1 f2 f4
    cases l2 with
    | nil =>
      obtain ⟨m1, m2⟩ := k3
      rw [m1] at f2 f4
      exact ⟨f2, f4⟩
    | cons z zs =>
      obtain ⟨m1, m2, m3⟩ := k3
      rw [m1] at f2 f3 f4
      have hzzs : z ∉ zs :=
        (List.nodup_cons.mp (List.nodup_cons.mp (List.nodup_cons.mp hnd).2).2).1
      refine ⟨f2, f4, ?_⟩
      apply linked_frame h h' zs z e m3
      · intro n hn
        have n1 : n ≠ x := fun e1 => hxl2 (e1 ▸ hn)
        have n2 : n ≠ a := fun e1 => hal2 (e1 ▸ hn)
        exact f1 n n1 n2
      · intro n hn
        have n1 : n ≠ x := by
          intro e1
          rcases List.mem_append.mp hn with hm | hm
          · exact hxl2 (List.mem_cons_of_mem _ (e1 ▸ hm))
          · exact hex ((List.mem_singleton.mp hm).symm.trans e1)
        have n2 : n ≠ z := by
          intro e1
          rcases List.mem_append.mp hn with hm | hm
          · exact hzzs (e1 ▸ hm)
          · exact hel2 ((List.mem_singleton.mp hm) ▸ e1 ▸ List.mem_cons_self _ _)
        exact f3 n n1 n2
  | cons y ys ih =>
    intro a hl hnd he f1 f2 f3 f4
    simp only [List.cons_append] at hl hnd he ⊢
    obtain ⟨k1, k2, k3⟩ := hl
    have hnd' := List.nodup_cons.mp hnd
    have hnd'' := List.nodup_cons.mp hnd'.2
    have hprev := linked_prev_mem h x ys y l2 e k3
    have hnext := linked_next_mem h x ys y l2 e k3
    have hax : a ≠ x := fun e1 => hnd'.1 (e1 ▸ by simp)
    have hap : a ≠ (h x).prev := by
      intro e1
      apply hnd'.1
      rw [e1]
      rcases List.mem_cons.mp hprev with hm | hm
      · rw [hm]; exact List.mem_cons_self _ _
      · exact List.mem_cons_of_mem _ (List.mem_append_left _ hm)
    have hyx : y ≠ x := fun e1 => hnd''.1 (e1 ▸ by simp)
    have hyn : y ≠ (h x).next := by
      intro e1
      rcases List.mem_append.mp hnext with hm | hm
      · apply hnd''.1
        rw [e1]
        exact List.mem_append_right _ (List.mem_cons_of_mem _ hm)
      · apply he
        rw [← List.mem_singleton.mp hm, ← e1]
        exact List.mem_cons_self _ _
    refine ⟨(f1 a hax hap).trans k1, (f3 y hyx hyn).trans k2, ?_⟩
    exact ih y k3 hnd'.2 (fun hm => he (List.mem_cons_of_mem _ hm)) f1 f2 f3 f4

/-- list_del of a member takes it out of the sequence, keeps the order of the
others, and sets its pointers to NULL. -/
theorem is_list_del (x head : Nat) (h : Heap) (l : List Nat) (hl : IsList h head l)
    (hx : x ∈ l) :
    IsList (__list_del x h) head (l.erase x) ∧
    ((__list_del x h) x).next = NULL ∧ ((__list_del x h) x).prev = NULL := by
  obtain ⟨hnd, hlk⟩ := hl
  obtain ⟨l1, l2, rfl⟩ := List.append_of_mem hx
  have hndl := (List.nodup_cons.mp hnd).2
  have hhl := (List.nodup_cons.mp hnd).1
  have hxl1 : x ∉ l1 := by
    intro hm
    have := List.disjoint_of_nodup_append hndl hm
    exact this (List.mem_cons_self _ _)
  have herase : (l1 ++ x :: l2).erase x = l1 ++ l2 := by
    rw [List.erase_append_right _ hxl1, List.erase_cons_head]
  rw [herase]
  refine ⟨⟨?_, ?_⟩, ?_, ?_⟩
  · refine List.Nodup.sublist ?_ hnd
    exact List.Sublist.cons₂ _ (List.Sublist.append (List.Sublist.refl _) (List.sublist_cons_self _ _))
  · apply linked_bypass h _ x head l2 l1 head hlk hnd hhl
    · intro n n1 n2
      rw [list_del_next]; simp only [n1, n2, if_false]
    · have hp : (h x).prev ≠ x := by
        intro e1
        have hm := linked_prev_mem h x l1 head l2 head hlk
        rw [e1] at hm
        rcases List.mem_cons.mp hm with hm | hm
        · exact hhl (hm ▸ hx)
        · exact hxl1 hm
      rw [list_del_next]; simp only [hp, if_false, if_true]
    · intro n n1 n2
      rw [list_del_prev]; simp only [n1, n2, if_false]
    · have hn : (h x).next ≠ x := by
        intro e1
        have hm := linked_next_mem h x l1 head l2 head hlk
        rw [e1] at hm
        rcases List.mem_append.mp hm with hm | hm
        · exact (List.nodup_cons.mp (List.nodup_append.mp hndl).2.1).1 hm
        · exact hhl ((List.mem_singleton.mp hm) ▸ hx)
      rw [list_del_prev]; simp only [hn, if_false, if_true]
  · rw [list_del_next]; simp only [if_true]
  · rw [list_del_prev]; simp only [if_true]

/-- A list that holds a sequence reads as that sequence and is well-formed. -/
theorem is_list_refines (h : Heap) (head : Nat) (l : List Nat) (hl : IsList h head l) :
    Refines h head l := by
  refine ⟨hl, ?_, ?_⟩
  · exact linked_walk h head l head (l.length + 1) hl.2 (List.nodup_cons.mp hl.1).1
      (Nat.lt_succ_self _)
  · obtain ⟨w1, w2⟩ := linked_wf h l head head hl.2
    intro n hn
    refine ⟨w1 n hn, w2 n ?_⟩
    rcases List.mem_cons.mp hn with e | hm
    · rw [e]; simp
    · exact List.mem_append_left _ hm

/-- C26: the intrusive list implements a sequence.  list_init yields the
empty sequence; and for every list that holds a sequence `l` (sentinel and
members distinct nodes linked in a circle): list_empty holds iff `l` is empty;
following next from the sentinel reads `l`, and n.next.prev = n and
n.prev.next = n for the sentinel and every member; list_add of a node that is
not linked prepends it and list_add_tail appends it; list_del of a member
removes exactly that member, keeps the order of the others and sets its next
and prev to NULL; list_pop_first on a non-empty list returns and removes the
first element; and the list after each operation again holds its sequence,
reads as it and is well-formed. -/
theorem list_refines_sequence (h : Heap) (head : Nat) (l : List Nat) (hl : IsList h head l) :
    (∀ h0 : Heap, Refines (__list_init head h0) head spec_init) ∧
    __list_empty head h = spec_empty l ∧
    Refines h head l ∧
    (∀ x, x ∉ head :: l → Refines (__list_add x head h) head (spec_add x l)) ∧
    (∀ x, x ∉ head :: l → Refines (__list_add_tail x head h) head (spec_add_tail x l)) ∧
    (∀ x, x ∈ l → Refines (__list_del x h) head (spec_del x l) ∧
      ((__list_del x h) x).next = NULL ∧ ((__list_del x h) x).prev = NULL ∧
      ∃ l1 l2, l = l1 ++ x :: l2 ∧ spec_del x l = l1 ++ l2) ∧
    (l ≠ [] → ∃ x rest, spec_pop_first l = some (x, rest) ∧ (list_pop_first head h).1 = x ∧
      Refines (list_pop_first head h).2 head rest) := by
  refine ⟨fun h0 => is_list_refines _ _ _ (is_list_init head h0), is_list_empty head h l hl,
    is_list_refines _ _ _ hl, fun x hx => is_list_refines _ _ _ (is_list_add x head h l hl hx),
    fun x hx => is_list_refines _ _ _ (is_list_add_tail x head h l hl hx), ?_, ?_⟩
  · intro x hx
    obtain ⟨d1, d2, d3⟩ := is_list_del x head h l hl hx
    refine ⟨is_list_refines _ _ _ d1, d2, d3, ?_⟩
    obtain ⟨l1, l2, e⟩ := List.append_of_mem hx
    refine ⟨l1, l2, e, ?_⟩
    have hndl := (List.nodup_cons.mp hl.1).2
    rw [e] at hndl
    have hxl1 : x ∉ l1 := fun hm =>
      List.disjoint_of_nodup_append hndl hm (List.mem_cons_self _ _)
    simp only [spec_del]
    rw [e, List.erase_append_right _ hxl1, List.erase_cons_head]
  · intro hne
    cases l with
    | nil => exact absurd rfl hne
    | cons y ys =>
      have hfirst : list_first_entry head h = y := hl.2.1
      refine ⟨y, ys, rfl, ?_, ?_⟩
      · simp only [list_pop_first]; exact hfirst
      · have hd := (is_list_del y head h (y :: ys) hl (List.mem_cons_self _ _)).1
        rw [List.erase_cons_head] at hd
        simp only [list_pop_first, hfirst]
        exact is_list_refines _ _ _ hd

/-- C26 at a concrete memory: on the list made by list_init at node 100,
list_add(1) gives the sequence 1; on that list list_add_tail(2) gives 1, 2; on
that list list_del(1) gives 2 with the pointers of node 1 set to NULL. -/
theorem list_refines_sequence_witness :
    Refines (__list_add 1 100 (__list_init 100 null_heap)) 100 [1] ∧
    Refines (__list_add_tail 2 100 (__list_add 1 100 (__list_init 100 null_heap))) 100 [1, 2] ∧
    Refines (__list_del 1 (__list_add_tail 2 100 (__list_add 1 100 (__list_init 100 null_heap))))
      100 [2] ∧
    ((__list_del 1 (__list_add_tail 2 100 (__list_add 1 100 (__list_init 100 null_heap)))) 1).next
      = NULL := by
  have t0 := is_list_init 100 null_heap
  have t1 := (list_refines_sequence _ 100 [] t0).2.2.2.1 1 (by decide)
  have t2 := (list_refines_sequence _ 100 [1] t1.1).2.2.2.2.1 2 (by decide)
  have t3 := (list_refines_sequence _ 100 [1, 2] t2.1).2.2.2.2.2.1 1 (by decide)
  exact ⟨t1, t2, t3.1, t3.2.1⟩

end IntrusiveList

